import Mathlib

/-!
# goldfinger: savings-bond extraction and aggregation

A shallow embedding of `bonds/bonds.go` of `chrisbsmith/goldfinger`.

* Go strings are modelled as Lean strings (sequences of Unicode code points).
* A Go `error` result is an `Option`: `none` is the `nil` error.
* A function that can dereference a `nil` pointer returns an `Option` whose
  `none` is the runtime panic.
* The two finders of the external library `github.com/itzg/restify`, the number
  parser `strconv.ParseFloat` and the `float64` addition are not code of the
  repository: the embedded functions take them as parameters, and the general
  theorems hold for every choice of them.
-/

set_option autoImplicit false
set_option linter.dupNamespace false

deriving instance DecidableEq for Except

namespace Goldfinger

/-! ## Strings -/

/-- Go `unicode.IsSpace`: the Latin-1 spaces `\t \n \v \f \r`, space, U+0085, U+00A0,
and the code points of the Unicode White_Space property above Latin-1. -/
def isSpace (c : Char) : Bool :=
  let n := c.toNat
  (9 ≤ n && n ≤ 13) || n == 0x20 || n == 0x85 || n == 0xA0 || n == 0x1680 ||
  (0x2000 ≤ n && n ≤ 0x200A) || n == 0x2028 || n == 0x2029 || n == 0x202F ||
  n == 0x205F || n == 0x3000

/-- The characters of `s` without its trailing white space. -/
def trimRight (s : List Char) : List Char :=
  (s.reverse.dropWhile isSpace).reverse

/-- Go `strings.TrimSpace`: `s` without its leading and trailing white space. -/
def TrimSpace (s : String) : String :=
  ⟨trimRight (s.data.dropWhile isSpace)⟩

/-- Auxiliary loop of `Replace` for a non-empty `old`: `n` replacements are still to be
made, and `skip` characters of an occurrence just replaced are still to be dropped. -/
def replaceAux (old new : List Char) : Nat → Nat → List Char → List Char
  | _, _, [] => []
  | n, skip + 1, _ :: t => replaceAux old new n skip t
  | 0, 0, c :: t => c :: t
  | n + 1, 0, c :: t =>
    if old.isPrefixOf (c :: t) then new ++ replaceAux old new n (old.length - 1) t
    else c :: replaceAux old new (n + 1) 0 t

/-- Auxiliary loop of `Replace` for the empty `old`: `new` is inserted before each of the
first code points, and at the end of the text, at most `n` times. -/
def replaceEmpty (new : List Char) : Nat → List Char → List Char
  | 0, s => s
  | _ + 1, [] => new
  | n + 1, c :: t => new ++ c :: replaceEmpty new n t

/-- Go `strings.Replace(s, old, new, n)`: a copy of `s` with the first `n` non-overlapping
instances of `old` replaced by `new`; a negative `n` puts no limit on their number. -/
def Replace (s old new : String) (n : Int) : String :=
  if old = new ∨ n = 0 then s
  else
    let k : Nat := if n < 0 then s.data.length + 1 else n.toNat
    if old.data = [] then ⟨replaceEmpty new.data k s.data⟩
    else ⟨replaceAux old.data new.data k 0 s.data⟩

/-! ## Data model -/

/-- Go `Bond`: eleven text fields; the zero value has every field empty. -/
structure Bond where
  Denomination : String := ""
  Serial : String := ""
  IssueDate : String := ""
  Series : String := ""
  NextAccrual : String := ""
  FinalMaturity : String := ""
  IssuePrice : String := ""
  Interest : String := ""
  InterestRate : String := ""
  Value : String := ""
  Note : String := ""
deriving DecidableEq, Repr

/-- Go `Bonds`: a collection of bond records. -/
structure Bonds where
  Bonds : List Bond := []
deriving DecidableEq, Repr

/-- The error values declared in `bonds.go`. -/
inductive BondError where
  | ErrInvalidDataReturned
deriving DecidableEq, Repr

/-! ## HTML nodes -/

/-- Go `html.NodeType`. -/
inductive NodeType where
  | ErrorNode | TextNode | DocumentNode | ElementNode | CommentNode | DoctypeNode | RawNode
deriving DecidableEq, Repr

/-- Go `html.Attribute`. -/
structure Attribute where
  Namespace : String := ""
  Key : String
  Val : String
deriving DecidableEq, Repr

/-- Go `html.Node`, as a tree: the node type, `Data` (the tag name of an element, the
content of a text node), the attributes, and the children in document order (the chain
`FirstChild`, `NextSibling`, ...). -/
inductive Node where
  | mk (Type_ : NodeType) (Data : String) (Attr : List Attribute) (children : List Node)

namespace Node

/-- Field `Type` of a node. -/
def Type_ : Node → NodeType
  | .mk t _ _ _ => t

/-- Field `Data` of a node. -/
def Data : Node → String
  | .mk _ d _ _ => d

/-- Field `Attr` of a node. -/
def Attr : Node → List Attribute
  | .mk _ _ a _ => a

/-- The children of a node in document order. -/
def children : Node → List Node
  | .mk _ _ _ cs => cs

/-- Field `FirstChild` of a node: `none` is the `nil` pointer. -/
def FirstChild (n : Node) : Option Node :=
  n.children.head?

/-- An element node with the given tag, attributes and children. -/
def elem (tag : String) (attrs : List Attribute) (cs : List Node) : Node :=
  .mk .ElementNode tag attrs cs

/-- A text node with the given content. -/
def text (s : String) : Node :=
  .mk .TextNode s [] []

end Node

/-- The two finders of `github.com/itzg/restify` that `parseBondData` calls; each returns
the nodes it found under the given root, in the order it found them. -/
structure Restify where
  FindSubsetByClass : Node → String → List Node
  FindSubsetByTagName : Node → String → List Node

/-! ## parseBondData -/

/-- The variables `data` and `val` of `parseBondData`, which live across all iterations
of its extraction loops. -/
structure LoopState where
  data : List String
  val : String
deriving DecidableEq, Repr

/-- The loop `for _, x := range v { val = x.FirstChild.Data }`; `none` when some `x` has
no first child. -/
def lastChildData : List Node → String → Option String
  | [], val => some val
  | x :: v, _ =>
    match x.FirstChild with
    | none => none
    | some c => lastChildData v c.Data

/-- One iteration of the loop over the `td` cells of a row (`bonds.go`, lines 133-152). -/
def cellStep (R : Restify) (st : LoopState) (value : Node) : Option LoopState :=
  match value.FirstChild with
  | none => none
  | some fc =>
    if fc.Data = "strong" then
      match lastChildData (R.FindSubsetByTagName value "strong") st.val with
      | none => none
      | some val => some ⟨st.data ++ [val], val⟩
    else if fc.Data = "a" then
      match lastChildData (R.FindSubsetByTagName value "a") st.val with
      | none => none
      | some val => some ⟨st.data ++ [val], val⟩
    else if fc.Data = "input" then
      some st
    else
      some ⟨st.data ++ [fc.Data], fc.Data⟩

/-- The loop `for _, value := range values`. -/
def cellsLoop (R : Restify) : List Node → LoopState → Option LoopState
  | [], st => some st
  | value :: values, st =>
    match cellStep R st value with
    | none => none
    | some st1 => cellsLoop R values st1

/-- The loop `for _, ns := range n` over the rows of class `altrow1`. -/
def rowsLoop (R : Restify) : List Node → LoopState → Option LoopState
  | [], st => some st
  | ns :: n, st =>
    match cellsLoop R (R.FindSubsetByTagName ns "td") st with
    | none => none
    | some st1 => rowsLoop R n st1

/-- The loop `for _, nodes := range bonddata` over the containers of class `bnddata`. -/
def containersLoop (R : Restify) : List Node → LoopState → Option LoopState
  | [], st => some st
  | nodes :: bonddata, st =>
    match rowsLoop R (R.FindSubsetByClass nodes "altrow1") st with
    | none => none
    | some st1 => containersLoop R bonddata st1

/-- The value of `data` when the extraction loops of `parseBondData` are over
(`bonds.go`, lines 124-154); `none` when they panic. -/
def extractData (R : Restify) (n : Node) : Option (List String) :=
  match containersLoop R (R.FindSubsetByClass n "bnddata") ⟨[], ""⟩ with
  | none => none
  | some st => some st.data

/-- The body of the `switch count` of `parseBondData`. -/
def assignField (SavingsBond : Bond) (data : List String) (count : Nat) : Bond :=
  match count with
  | 0 => { SavingsBond with Serial := TrimSpace (data.getD count "") }
  | 1 => { SavingsBond with Series := TrimSpace (data.getD count "") }
  | 2 => { SavingsBond with Denomination := TrimSpace (data.getD count "") }
  | 3 => { SavingsBond with IssueDate := TrimSpace (data.getD count "") }
  | 4 => { SavingsBond with NextAccrual := TrimSpace (data.getD count "") }
  | 5 => { SavingsBond with FinalMaturity := TrimSpace (data.getD count "") }
  | 6 => { SavingsBond with IssuePrice := TrimSpace (data.getD count "") }
  | 7 => { SavingsBond with Interest := TrimSpace (data.getD count "") }
  | 8 => { SavingsBond with InterestRate := TrimSpace (data.getD count "") }
  | 9 => { SavingsBond with Value := TrimSpace (data.getD count "") }
  | 10 => { SavingsBond with Note := TrimSpace (data.getD count "") }
  | _ => SavingsBond

/-- The loop `for count := range data` of `parseBondData`, from the zero `Bond`. -/
def assignFields (data : List String) : Bond :=
  (List.range data.length).foldl (fun SavingsBond count => assignField SavingsBond data count) {}

/-- Go `parseBondData`: the record and the error it returns, or `none` when it panics. -/
def parseBondData (R : Restify) (n : Node) : Option (Bond × Option BondError) :=
  match extractData R n with
  | none => none
  | some data =>
    if data.length ≠ 11 then some ({}, some .ErrInvalidDataReturned)
    else some (assignFields data, none)

/-! ## The aggregator -/

/-- Go `Bonds.FindUnmaturedBonds`: the loop appends to `r` every record whose note is
not `"MA"`. -/
def Bonds.FindUnmaturedBonds (b : Goldfinger.Bonds) : List Bond :=
  b.Bonds.foldl (fun r bd => if bd.Note ≠ "MA" then r ++ [bd] else r) []

/-- The numeric environment of the sum operations: the `float64` values, the `error`
values of the number parser, the constant `0`, the `float64` addition, and
`strconv.ParseFloat(s, bitSize)` (its result is the parsed number or its error). -/
structure FloatEnv where
  Float64 : Type
  NumError : Type
  zero : Float64
  add : Float64 → Float64 → Float64
  ParseFloat : String → Int → Except NumError Float64

/-- The loop of `GetTotalPurchasedPrice` from the running value `sum`. -/
def purchasedPriceLoop (env : FloatEnv) :
    List Bond → env.Float64 → env.Float64 × Option env.NumError
  | [], sum => (sum, none)
  | b :: bs, sum =>
    let s := Replace b.IssuePrice "$" "" 1
    match env.ParseFloat s 32 with
    | .error err => (env.zero, some err)
    | .ok r => purchasedPriceLoop env bs (env.add sum r)

/-- Go `Bonds.GetTotalPurchasedPrice`. -/
def Bonds.GetTotalPurchasedPrice (env : FloatEnv) (b : Goldfinger.Bonds) :
    env.Float64 × Option env.NumError :=
  purchasedPriceLoop env b.Bonds env.zero

/-- The loop of `GetTotalValue` from the running value `sum`. -/
def valueLoop (env : FloatEnv) :
    List Bond → env.Float64 → env.Float64 × Option env.NumError
  | [], sum => (sum, none)
  | b :: bs, sum =>
    let s := Replace b.Value "$" "" 1
    match env.ParseFloat s 32 with
    | .error err => (env.zero, some err)
    | .ok r => valueLoop env bs (env.add sum r)

/-- Go `Bonds.GetTotalValue`. -/
def Bonds.GetTotalValue (env : FloatEnv) (b : Goldfinger.Bonds) :
    env.Float64 × Option env.NumError :=
  valueLoop env b.Bonds env.zero

/-- The loop of `GetTotalInterest` from the running value `sum`. -/
def interestLoop (env : FloatEnv) :
    List Bond → env.Float64 → env.Float64 × Option env.NumError
  | [], sum => (sum, none)
  | b :: bs, sum =>
    let s := Replace b.Interest "$" "" 1
    match env.ParseFloat s 32 with
    | .error err => (env.zero, some err)
    | .ok r => interestLoop env bs (env.add sum r)

/-- Go `Bonds.GetTotalInterest`. -/
def Bonds.GetTotalInterest (env : FloatEnv) (b : Goldfinger.Bonds) :
    env.Float64 × Option env.NumError :=
  interestLoop env b.Bonds env.zero

/-! ## Reference model of `strconv.ParseFloat` and of the `float64` addition -/

/-- A `float64` value: a NaN, an infinity, or the finite number `(-1)^neg * m * 2^e`,
kept with `m` odd, or with `m = 0` and `e = 0` for the two zeros. -/
inductive F64 where
  | nan
  | inf (neg : Bool)
  | fin (neg : Bool) (m : Nat) (e : Int)
deriving DecidableEq, Repr

/-- The number of binary digits of `n` added to `acc`, counted with at most `fuel`
halvings. -/
def bitLenAux : Nat → Nat → Nat → Nat
  | 0, _, acc => acc
  | fuel + 1, n, acc => if n = 0 then acc else bitLenAux fuel (n / 2) (acc + 1)

/-- The number of binary digits of `n` (`0` for `n = 0`). -/
def bitLen (n : Nat) : Nat :=
  bitLenAux n n 0

/-- Removes the trailing zero bits of `m`, with at most `fuel` halvings. -/
def stripZerosAux : Nat → Nat → Int → Nat × Int
  | 0, m, e => (m, e)
  | fuel + 1, m, e => if m % 2 = 0 then stripZerosAux fuel (m / 2) (e + 1) else (m, e)

/-- The finite value `(-1)^neg * m * 2^e` in its kept form. -/
def F64.ofParts (neg : Bool) (m : Nat) (e : Int) : F64 :=
  if m = 0 then .fin neg 0 0
  else
    let r := stripZerosAux m m e
    .fin neg r.1 r.2

/-- The quotient `q` and remainder `r` of `num / den` by `2^e`, with the divisor `d` the
remainder is measured against: `num / den = (q + r / d) * 2^e` and `r < d`. -/
def scaledDiv (num den : Nat) (e : Int) : Nat × Nat × Nat :=
  if 0 ≤ e then
    let d := den * 2 ^ e.toNat
    (num / d, num % d, d)
  else
    let n := num * 2 ^ (-e).toNat
    (n / den, n % den, den)

/-- Rounds the positive number `num / den` to the nearest `m * 2^e` with `m` of at most
`prec` binary digits and `e ≥ emin`, ties to the even `m` (IEEE 754 round to nearest even,
the exponent not bounded above). -/
def roundNearestEven (prec : Nat) (emin : Int) (num den : Nat) : Nat × Int :=
  let e1 : Int := (bitLen num : Int) - (bitLen den : Int) - (prec : Int)
  let q1 := (scaledDiv num den e1).1
  let e2 : Int := if 2 ^ prec ≤ q1 then e1 + 1 else e1
  let e : Int := if e2 < emin then emin else e2
  let qrd := scaledDiv num den e
  let q := qrd.1
  let r := qrd.2.1
  let d := qrd.2.2
  let up : Bool := decide (d < 2 * r) || (decide (2 * r = d) && decide (q % 2 = 1))
  (if up then q + 1 else q, e)

/-- The nearest value of a binary floating-point format to `(-1)^neg * num / den`, and
whether it overflowed: `prec` is the precision, `emin` the exponent of the smallest
subnormal, `emax` the exponent bound (`2^emax` and above overflow to an infinity). -/
def roundTo (prec : Nat) (emin emax : Int) (neg : Bool) (num den : Nat) : F64 × Bool :=
  if num = 0 then (.fin neg 0 0, false)
  else
    let me := roundNearestEven prec emin num den
    if emax < (bitLen me.1 : Int) + me.2 then (.inf neg, true)
    else (F64.ofParts neg me.1 me.2, false)

/-- The nearest `float32` value, and whether it overflowed. -/
def roundFloat32 (neg : Bool) (num den : Nat) : F64 × Bool :=
  roundTo 24 (-149) 128 neg num den

/-- The nearest `float64` value, and whether it overflowed. -/
def roundFloat64 (neg : Bool) (num den : Nat) : F64 × Bool :=
  roundTo 53 (-1074) 1024 neg num den

/-- The integer `(-1)^neg * m`. -/
def signed (neg : Bool) (m : Nat) : Int :=
  if neg then -(m : Int) else (m : Int)

/-- The `float64` addition `x + y`. -/
def F64.add : F64 → F64 → F64
  | .nan, _ => .nan
  | _, .nan => .nan
  | .inf a, .inf b => if a = b then .inf a else .nan
  | .inf a, .fin _ _ _ => .inf a
  | .fin _ _ _, .inf b => .inf b
  | .fin n1 m1 e1, .fin n2 m2 e2 =>
    let e : Int := if e1 ≤ e2 then e1 else e2
    let i : Int := signed n1 (m1 * 2 ^ (e1 - e).toNat) + signed n2 (m2 * 2 ^ (e2 - e).toNat)
    if i = 0 then .fin (n1 && n2) 0 0
    else if 0 ≤ e then (roundFloat64 (decide (i < 0)) (i.natAbs * 2 ^ e.toNat) 1).1
    else (roundFloat64 (decide (i < 0)) i.natAbs (2 ^ (-e).toNat)).1


/-- The error kinds of `strconv`. -/
inductive ParseErr where
  | ErrSyntax | ErrRange
deriving DecidableEq, Repr

/-- Go `strconv.NumError`: the failing function, its input and the error kind. -/
structure NumError where
  Func : String
  Num : String
  Err : ParseErr
deriving DecidableEq, Repr

/-- The test `'0' <= c && c <= '9'`. -/
def isDigit (c : Char) : Bool :=
  decide (48 ≤ c.toNat) && decide (c.toNat ≤ 57)

/-- The function `lower` of `strconv`: the code `c | 0x20`. -/
def lower (c : Char) : Nat :=
  c.toNat ||| 0x20

/-- The test `'a' <= lower(c) && lower(c) <= 'f'`. -/
def isHexLetter (c : Char) : Bool :=
  decide (97 ≤ lower c) && decide (lower c ≤ 102)

/-- The function `commonPrefixLenIgnoreCase` of `strconv`, for a lower-case `pre`. -/
def commonPrefixLenIgnoreCase : List Char → List Char → Nat
  | c :: s, p :: pre =>
    let c1 : Nat := if 65 ≤ c.toNat ∧ c.toNat ≤ 90 then c.toNat + 32 else c.toNat
    if c1 = p.toNat then commonPrefixLenIgnoreCase s pre + 1 else 0
  | _, _ => 0

/-- The case `'i', 'I'` of `special`: an infinity when `s` starts with `inf` or is led by
`infinity`, with the number of characters used (`nsign` of them for the sign). -/
def specialInf (neg : Bool) (nsign : Nat) (s : List Char) : Option (F64 × Nat) :=
  let n := commonPrefixLenIgnoreCase s "infinity".data
  let n := if 3 < n ∧ n < 8 then 3 else n
  if n = 3 ∨ n = 8 then some (.inf neg, nsign + n) else none

/-- The function `special` of `strconv`: the infinities and NaN. -/
def special (s : List Char) : Option (F64 × Nat) :=
  match s with
  | [] => none
  | c :: t =>
    if c = '+' ∨ c = '-' then specialInf (decide (c = '-')) 1 t
    else if c = 'i' ∨ c = 'I' then specialInf false 0 s
    else if c = 'n' ∨ c = 'N' then
      if commonPrefixLenIgnoreCase s "nan".data = 3 then some (.nan, 3) else none
    else none

/-- The state of the mantissa loop of `readFloat`: what was seen, the digits read so far
as a number in the base, and how many of them stand after the point. -/
structure Digits where
  sawdot : Bool := false
  sawdigits : Bool := false
  underscores : Bool := false
  mantissa : Nat := 0
  frac : Nat := 0
deriving DecidableEq, Repr

/-- The mantissa loop of `readFloat`; returns the state and the text not read. -/
def readDigits (hex : Bool) : List Char → Digits → Digits × List Char
  | [], d => (d, [])
  | c :: t, d =>
    if c = '_' then readDigits hex t { d with underscores := true }
    else if c = '.' then
      if d.sawdot then (d, c :: t) else readDigits hex t { d with sawdot := true }
    else if isDigit c then
      readDigits hex t { d with
        sawdigits := true
        mantissa := d.mantissa * (if hex then 16 else 10) + (c.toNat - 48)
        frac := if d.sawdot then d.frac + 1 else d.frac }
    else if hex && isHexLetter c then
      readDigits hex t { d with
        sawdigits := true
        mantissa := d.mantissa * 16 + (lower c - 97 + 10)
        frac := if d.sawdot then d.frac + 1 else d.frac }
    else (d, c :: t)

/-- The exponent loop of `readFloat`; returns the exponent, whether an underscore was
seen, and the text not read. -/
def readExp : List Char → Nat → Bool → Nat × Bool × List Char
  | [], e, u => (e, u, [])
  | c :: t, e, u =>
    if c = '_' then readExp t e true
    else if isDigit c then readExp t (if e < 10000 then e * 10 + (c.toNat - 48) else e) u
    else (e, u, c :: t)

/-- The last character seen by `underscoreOK`. -/
inductive Saw where
  | start | digit | underscore | other
deriving DecidableEq, Repr

/-- The loop of `underscoreOK` over the number proper. -/
def underscoreLoop (hex : Bool) : List Char → Saw → Bool
  | [], saw => saw != .underscore
  | c :: t, saw =>
    if isDigit c || (hex && isHexLetter c) then underscoreLoop hex t .digit
    else if c = '_' then
      if saw != .digit then false else underscoreLoop hex t .underscore
    else if saw == .underscore then false
    else underscoreLoop hex t .other

/-- The function `underscoreOK` of `strconv`: an underscore stands only between digits, or
between a base marker and a digit. -/
def underscoreOK (s : List Char) : Bool :=
  let s1 := match s with
    | c :: t => if c = '-' ∨ c = '+' then t else s
    | [] => s
  match s1 with
  | c0 :: c1 :: t =>
    if c0 = '0' ∧ (lower c1 = 98 ∨ lower c1 = 111 ∨ lower c1 = 120) then
      underscoreLoop (decide (lower c1 = 120)) t .digit
    else underscoreLoop false s1 .start
  | _ => underscoreLoop false s1 .start

/-- The number read by `readFloat`: `(-1)^neg * mantissa * 10^exp`, or with `2^exp` for a
hexadecimal text, and the text not read. -/
structure FloatText where
  neg : Bool
  hex : Bool
  mantissa : Nat
  exp : Int
  rest : List Char
deriving DecidableEq, Repr

/-- The end of `readFloat`: the check of the underscores in the text read. -/
def finishFloat (s : List Char) (neg hex : Bool) (d : Digits) (underscores : Bool)
    (e : Int) (rest : List Char) : Option FloatText :=
  if underscores && !underscoreOK (s.take (s.length - rest.length)) then none
  else some ⟨neg, hex, d.mantissa, e - (if hex then 4 else 1) * (d.frac : Int), rest⟩

/-- The function `readFloat` of `strconv`; `none` when the text is not a number. -/
def readFloat (s : List Char) : Option FloatText :=
  match s with
  | [] => none
  | c :: t =>
    let neg : Bool := decide (c = '-')
    let s1 := if c = '+' ∨ c = '-' then t else s
    let hex : Bool := match s1 with
      | c0 :: c1 :: _ :: _ => decide (c0 = '0') && decide (lower c1 = 120)
      | _ => false
    let s2 := if hex then s1.drop 2 else s1
    let ds := readDigits hex s2 {}
    let d := ds.1
    if !d.sawdigits then none
    else
      match ds.2 with
      | [] => if hex then none else finishFloat s neg hex d d.underscores 0 []
      | c1 :: s4 =>
        if lower c1 = (if hex then 112 else 101) then
          match s4 with
          | [] => none
          | c2 :: s5 =>
            let esign : Int := if c2 = '-' then -1 else 1
            let s6 := if c2 = '+' ∨ c2 = '-' then s5 else s4
            match s6 with
            | [] => none
            | c3 :: _ =>
              if !isDigit c3 then none
              else
                let r := readExp s6 0 d.underscores
                finishFloat s neg hex d r.2.1 ((r.1 : Int) * esign) r.2.2
        else if hex then none
        else finishFloat s neg hex d d.underscores 0 (c1 :: s4)

/-- The value of the number read, rounded to `float32` when `bitSize` is 32 and to
`float64` otherwise, and whether it overflowed. -/
def floatValue (bitSize : Int) (f : FloatText) : F64 × Bool :=
  let base : Nat := if f.hex then 2 else 10
  let num : Nat := if 0 ≤ f.exp then f.mantissa * base ^ f.exp.toNat else f.mantissa
  let den : Nat := if 0 ≤ f.exp then 1 else base ^ (-f.exp).toNat
  if bitSize = 32 then roundFloat32 f.neg num den else roundFloat64 f.neg num den

/-- Go `strconv.ParseFloat(s, bitSize)`: the number nearest to the text, or the error. -/
def ParseFloat (s : String) (bitSize : Int) : Except NumError F64 :=
  match special s.data with
  | some (v, n) =>
    if n = s.data.length then .ok v else .error ⟨"ParseFloat", s, .ErrSyntax⟩
  | none =>
    match readFloat s.data with
    | none => .error ⟨"ParseFloat", s, .ErrSyntax⟩
    | some f =>
      if f.rest ≠ [] then .error ⟨"ParseFloat", s, .ErrSyntax⟩
      else
        let v := floatValue bitSize f
        if v.2 then .error ⟨"ParseFloat", s, .ErrRange⟩ else .ok v.1

/-- The rational value of a finite `float64`. -/
def F64.toRat : F64 → Option ℚ
  | .fin neg m e => some ((if neg then -1 else 1) * (m : ℚ) * (2 : ℚ) ^ e)
  | _ => none

/-- Reference numeric environment: IEEE 754 `float64` values with the addition rounded to
nearest even, and the number parser of `strconv`. -/
@[reducible]
def goFloat : FloatEnv where
  Float64 := F64
  NumError := NumError
  zero := .fin false 0 0
  add := F64.add
  ParseFloat := ParseFloat

/-- Probing environment: the parser rejects every text and reports, as its error, the
text it was handed. -/
@[reducible]
def echoEnv : FloatEnv where
  Float64 := Unit
  NumError := String
  zero := ()
  add := fun _ _ => ()
  ParseFloat := fun s _ => .error s

/-! ## Specification-side definitions for the sum operations -/

/-- Specification side: the sum operation as the spec words it, for a way `strip` of
removing the currency symbol and a field selector `field`: strip, parse, accumulate, and
give up with `0` and the parse error at the first text that does not parse. -/
def sumFieldWith (strip : String → String) (env : FloatEnv) (field : Bond → String) :
    List Bond → env.Float64 → env.Float64 × Option env.NumError
  | [], sum => (sum, none)
  | b :: bs, sum =>
    match env.ParseFloat (strip (field b)) 32 with
    | .error err => (env.zero, some err)
    | .ok r => sumFieldWith strip env field bs (env.add sum r)

/-- Specification side: `s` without a leading `"$"`, when it starts with one. -/
def stripLeadingDollar (s : String) : String :=
  match s.data with
  | '$' :: t => ⟨t⟩
  | _ => s

/-- The text `s` without its first `"$"`, wherever that stands. -/
def stripFirstDollar (s : String) : String :=
  ⟨s.data.erase '$'⟩

/-- The result of the number parser on the chosen field of a record, as the sum
operations call it. -/
def parseField (env : FloatEnv) (field : Bond → String) (b : Bond) :
    Except env.NumError env.Float64 :=
  env.ParseFloat (Replace (field b) "$" "" 1) 32

/-- The error contract of a sum operation `total` over the field `field`: it returns an
error exactly when the field of some record does not parse, and then it returns `0` and
the parse error of the first such record. -/
def FailsAtFirstParseError (env : FloatEnv) (field : Bond → String)
    (total : Bonds → env.Float64 × Option env.NumError) : Prop :=
  ∀ c : Bonds,
    ((∃ err, (total c).2 = some err) ↔
      ∃ b ∈ c.Bonds, ∃ e, parseField env field b = .error e) ∧
    (∀ (pre post : List Bond) (b : Bond) (e : env.NumError),
      c.Bonds = pre ++ b :: post →
      (∀ x ∈ pre, ∃ v, parseField env field x = .ok v) →
      parseField env field b = .error e →
      total c = (env.zero, some e))

/-- The success contract of a sum operation `total` over the field `field`: when the field
of every record parses, it returns no error and the left-to-right sum, from `0`, of the
parsed values. -/
def SumsParsedValues (env : FloatEnv) (field : Bond → String)
    (total : Bonds → env.Float64 × Option env.NumError) : Prop :=
  ∀ (c : Bonds) (vs : List env.Float64),
    List.Forall₂ (fun b v => parseField env field b = .ok v) c.Bonds vs →
    total c = (vs.foldl env.add env.zero, none)

/-! ## Reference model of the restify finders

The finders are library code. The model below is used for concrete documents only,
none of which has a match nested in another match, a match at the root handed to the
finder, or a class attribute with more than one class. -/

/-- Go `strings.Split(s, " ")` on the characters of `s`. -/
def splitSpace : List Char → List (List Char)
  | [] => [[]]
  | c :: t =>
    match splitSpace t with
    | [] => [[c]]
    | w :: ws => if c = ' ' then [] :: w :: ws else (c :: w) :: ws

/-- An element node one of whose `class` attributes lists `className`. -/
def hasClass (className : String) (n : Node) : Bool :=
  n.Type_ == .ElementNode &&
    n.Attr.any (fun a => a.Key == "class" && (splitSpace a.Val.data).contains className.data)

/-- An element node whose tag is `tagName`. -/
def hasTagName (tagName : String) (n : Node) : Bool :=
  n.Type_ == .ElementNode && n.Data == tagName

mutual
/-- Pre-order search from a node: a node that matches is recorded and the search does
not go below it. -/
def findSubset (matcher : Node → Bool) : Node → List Node
  | .mk t d a cs =>
    if matcher (.mk t d a cs) then [.mk t d a cs] else findSubsetList matcher cs
/-- The search of `findSubset` over a list of siblings, left to right. -/
def findSubsetList (matcher : Node → Bool) : List Node → List Node
  | [] => []
  | c :: cs => findSubset matcher c ++ findSubsetList matcher cs
end

/-- Reference model of the two restify finders. -/
def restify : Restify where
  FindSubsetByClass := fun root className => findSubset (hasClass className) root
  FindSubsetByTagName := fun root tagName => findSubset (hasTagName tagName) root

/-! ## Concrete documents -/

/-- A `td` cell holding one text node. -/
def tdText (s : String) : Node :=
  .elem "td" [] [.text s]

/-- A document with one `bnddata` table holding a header row and the given highlighted rows. -/
def docOfRows (rows : List (List Node)) : Node :=
  .mk .DocumentNode "" [] [.elem "html" [] [.elem "head" [] [], .elem "body" [] [
    .elem "table" [⟨"", "class", "bnddata"⟩] [.elem "tbody" [] (
      .elem "tr" [] [.elem "th" [] [.text "Serial #"]] ::
      rows.map (fun cells => .elem "tr" [⟨"", "class", "altrow1"⟩] cells))]]]]

/-- A document whose highlighted row has seven cells. -/
def docSeven : Node :=
  docOfRows [[tdText "abcdef", tdText "AA", tdText "$50", tdText "01/2000", tdText " ",
    tdText "01/2030", tdText "$25.00"]]

/-- A document whose highlighted row is the matured bond of `bonds_test.go`: the serial
number is emphasised, the series is a link, and a leading cell holds a form control. -/
def docMatured : Node :=
  docOfRows [[
    .elem "td" [] [.elem "input" [⟨"", "type", "checkbox"⟩] []],
    .elem "td" [] [.elem "strong" [] [.text "abcdef"]],
    .elem "td" [] [.elem "a" [⟨"", "href", "#"⟩] [.text "EE"]],
    tdText " $50", tdText "01/1990", tdText " ", tdText "01/2020 ", tdText "$25.00",
    tdText "$78.68", tdText "\n", tdText "$103.68", tdText "MA"]]

/-- A row with a form-control cell followed by two text cells. -/
def rowWithInput : List Node :=
  [.elem "td" [] [.elem "input" [⟨"", "type", "checkbox"⟩] []], tdText "abcdef", tdText "EE"]

/-- A cell whose first child is an emphasis element followed by a second one. -/
def cellTwoStrong : Node :=
  .elem "td" [] [.elem "strong" [] [.text "A"], .elem "strong" [] [.text "B"]]

/-- A cell whose first child is a hyperlink followed by a second one. -/
def cellTwoLinks : Node :=
  .elem "td" [] [.elem "a" [⟨"", "href", "#1"⟩] [.text "A"],
    .elem "a" [⟨"", "href", "#2"⟩] [.text "B"]]

/-- A document whose highlighted row has eleven cells, the first being `cellTwoStrong`. -/
def docTwoStrong : Node :=
  docOfRows [[cellTwoStrong, tdText "EE", tdText "$50", tdText "01/1990", tdText " ",
    tdText "01/2020", tdText "$25.00", tdText "$78.68", tdText " ", tdText "$103.68",
    tdText "MA"]]

/-- The cells that the extraction loops of `parseBondData` visit, in the order they visit
them: the `td` cells found in each `altrow1` row found in each `bnddata` container. -/
def visitedCells (R : Restify) (n : Node) : List Node :=
  ((R.FindSubsetByClass n "bnddata").flatMap (fun nodes => R.FindSubsetByClass nodes "altrow1")).flatMap
    (fun ns => R.FindSubsetByTagName ns "td")

/-- Whether the first child of a cell carries the data `"input"`. -/
def firstChildIsInput (cell : Node) : Bool :=
  match cell.FirstChild with
  | none => false
  | some fc => decide (fc.Data = "input")

/-- A row of three text cells whose texts are a serial number, the word `input` and the
word `strong`. -/
def rowTagWords : List Node :=
  [tdText "abcdef", tdText "input", tdText "strong"]

/-- A document whose highlighted row has eleven text cells, the second of which holds the
word `input`. -/
def docInputWord : Node :=
  docOfRows [[tdText "abcdef", tdText "input", tdText "$50", tdText "01/1990", tdText " ",
    tdText "01/2020", tdText "$25.00", tdText "$78.68", tdText " ", tdText "$103.68",
    tdText "MA"]]

/-- A document whose highlighted row has eleven cells, the fifth of which is empty. -/
def docEmptyCell : Node :=
  docOfRows [[tdText "abcdef", tdText "EE", tdText "$50", tdText "01/1990",
    .elem "td" [] [], tdText "01/2020", tdText "$25.00", tdText "$78.68", tdText " ",
    tdText "$103.68", tdText "MA"]]

/-- A document whose highlighted row has eleven cells, the first of which holds an
emphasis element without content. -/
def docEmptyStrong : Node :=
  docOfRows [[.elem "td" [] [.elem "strong" [] []], tdText "EE", tdText "$50",
    tdText "01/1990", tdText " ", tdText "01/2020", tdText "$25.00", tdText "$78.68",
    tdText " ", tdText "$103.68", tdText "MA"]]

/-- A document without any node of class `bnddata`: an error page. -/
def docNoContainer : Node :=
  .mk .DocumentNode "" [] [.elem "html" [] [.elem "head" [] [], .elem "body" [] [
    .elem "p" [] [.text "The bond could not be found."]]]]

/-- A document whose `bnddata` table has a header row only. -/
def docNoRow : Node :=
  docOfRows []

/-- The eleven cells of the matured bond of `bonds_test.go`, as text cells. -/
def maturedCells : List Node :=
  [tdText "abcdef", tdText "EE", tdText "$50", tdText "01/1990", tdText " ",
    tdText "01/2020", tdText "$25.00", tdText "$78.68", tdText " ", tdText "$103.68",
    tdText "MA"]

/-- A document with two highlighted rows of eleven text cells each. -/
def docTwoRows : Node :=
  docOfRows [maturedCells, maturedCells]

/-- A row whose second cell opens with a text that reads `strong` and so holds no
emphasis element, between a text cell and a form-control cell. -/
def rowStale : List Node :=
  [tdText "abcdef", tdText "strong",
    .elem "td" [] [.elem "input" [⟨"", "type", "checkbox"⟩] []], tdText "EE"]

/-- A cell that the extraction can read: it has a first child, and when that child carries
the data `"strong"` or `"a"`, each element found for that tag in the cell has a first
child. -/
def CellReadable (R : Restify) (cell : Node) : Prop :=
  ∃ fc, cell.FirstChild = some fc ∧
    (fc.Data = "strong" → ∀ x ∈ R.FindSubsetByTagName cell "strong", x.FirstChild ≠ none) ∧
    (fc.Data = "a" → ∀ x ∈ R.FindSubsetByTagName cell "a", x.FirstChild ≠ none)

/-- The highlighted row element with the given cells. -/
def bondRow (cells : List Node) : Node :=
  .elem "tr" [⟨"", "class", "altrow1"⟩] cells

/-- The `bnddata` table element of `docOfRows`. -/
def bondTable (rows : List (List Node)) : Node :=
  .elem "table" [⟨"", "class", "bnddata"⟩] [.elem "tbody" [] (
    .elem "tr" [] [.elem "th" [] [.text "Serial #"]] :: rows.map bondRow)]

/-- The texts of the eleven cells of `maturedCells`. -/
def maturedTexts : List String :=
  ["abcdef", "EE", "$50", "01/1990", " ", "01/2020", "$25.00", "$78.68", " ", "$103.68", "MA"]

/-! ## Configuration (`config/config.go`) -/

/-- Go `config.ConfigBond`: the request descriptor of one bond. -/
structure ConfigBond where
  Denomination : Int := 0
  Serial : String := ""
  IssueDate : String := ""
  Series : String := ""
deriving DecidableEq, Repr

/-- Go `config.Config`; a `nil` list of bonds and an empty one are both the empty list. -/
structure Config where
  Bonds : List ConfigBond := []
deriving DecidableEq, Repr

/-- The error values declared in `config.go`, and the errors of `yaml.Unmarshal`, which
carry a message. -/
inductive ConfigError where
  | ErrConfigFileNotFound
  | ErrNoBondsInConfig
  | ErrConfigIsNil
  | ErrConfigIsNotInt
  | ErrConfigIsNotString
  | ErrConfigIsNotComplete
  | yaml (msg : String)
deriving DecidableEq, Repr

/-- Go `reflect.Kind`, for the kinds that the fields of a `ConfigBond` have. -/
inductive Kind where
  | Int
  | String
deriving DecidableEq, Repr

/-- The call `reflect.TypeOf(x).Kind()` for a field declared `int`. -/
def kindOfInt (_ : Int) : Kind :=
  Kind.Int

/-- The call `reflect.TypeOf(x).Kind()` for a field declared `string`. -/
def kindOfString (_ : String) : Kind :=
  Kind.String

/-- The loop `for _, b := range config.Bonds` of `parseAndValidateConfigBytes`: the error
it returns with, or `none` when it runs to its end. -/
def validateBonds : List ConfigBond → Option ConfigError
  | [] => none
  | b :: bs =>
    if kindOfInt b.Denomination ≠ Kind.Int then some .ErrConfigIsNotInt
    else if kindOfString b.IssueDate ≠ Kind.String then some .ErrConfigIsNotString
    else if kindOfString b.Serial ≠ Kind.String then some .ErrConfigIsNotString
    else if kindOfString b.Series ≠ Kind.String then some .ErrConfigIsNotString
    else if b.Denomination = 0 ∨ b.Denomination < 0 then some .ErrConfigIsNotComplete
    else if b.IssueDate = "" ∨ b.Serial = "" ∨ b.Series = "" then some .ErrConfigIsNotComplete
    else validateBonds bs

/-- The validation of `parseAndValidateConfigBytes` (`config.go`, lines 81-110) on the
decoded configuration, a pointer that may be `nil`: the configuration and the error that
the function returns. -/
def validateConfig (config : Option Config) : Option Config × Option ConfigError :=
  match config with
  | none => (none, some .ErrConfigIsNil)
  | some c =>
    if c.Bonds = [] then (some c, some .ErrNoBondsInConfig)
    else
      match validateBonds c.Bonds with
      | some err => (none, some err)
      | none => (some c, none)

/-- The outside of the configuration loader: `os.ReadFile` (`none` is its error) and
`yaml.Unmarshal` into a `*Config` (the pointer it leaves and the message of its error). -/
structure ConfigEnv where
  ReadFile : String → Option (List UInt8)
  Unmarshal : List UInt8 → Option Config × Option String

/-- Go `parseAndValidateConfigBytes`. -/
def parseAndValidateConfigBytes (env : ConfigEnv) (yamlBytes : List UInt8) :
    Option Config × Option ConfigError :=
  match env.Unmarshal yamlBytes with
  | (config, some msg) => (config, some (.yaml msg))
  | (config, none) => validateConfig config

/-- Go `LoadConfig`. -/
def LoadConfig (env : ConfigEnv) (configPath : String) : Option Config × Option ConfigError :=
  match env.ReadFile configPath with
  | none => (none, some .ErrConfigFileNotFound)
  | some configBytes =>
    if configBytes.length = 0 then (none, some .ErrConfigFileNotFound)
    else
      match parseAndValidateConfigBytes env configBytes with
      | (config, some err) => (config, some err)
      | (config, none) => (config, none)

/-- A complete request descriptor: a positive denomination and non-empty serial, issue
date and series. -/
def CompleteBond (b : ConfigBond) : Prop :=
  0 < b.Denomination ∧ b.Serial ≠ "" ∧ b.IssueDate ≠ "" ∧ b.Series ≠ ""

/-- A decoder that yields the given configuration for every input, and a file system
with one non-empty file at every path. -/
def constEnv (config : Option Config) : ConfigEnv where
  ReadFile := fun _ => some [98]
  Unmarshal := fun _ => (config, none)

/-- The valid configuration of `config_test.go`. -/
def validConfig : Config :=
  ⟨[{ Denomination := 50, Serial := "abcdefg", IssueDate := "01/2000", Series := "EE" }]⟩

/-! ## LoadBonds -/

/-- The loop of `LoadBonds`. The retrieval `GetBond` is a parameter: from a descriptor and
the state of the outside it gives the record or the error, and the new state. -/
def loadBondsLoop {σ ε : Type} (GetBond : ConfigBond → σ → Except ε Bond × σ) :
    List ConfigBond → Goldfinger.Bonds → σ → (Goldfinger.Bonds × Option ε) × σ
  | [], bonds, s => ((bonds, none), s)
  | b :: bs, bonds, s =>
    match GetBond b s with
    | (.error err, s1) => ((bonds, some err), s1)
    | (.ok v, s1) => loadBondsLoop GetBond bs ⟨bonds.Bonds ++ [v]⟩ s1

/-- Go `LoadBonds`, for a configuration that is not `nil`. -/
def LoadBonds {σ ε : Type} (GetBond : ConfigBond → σ → Except ε Bond × σ) (config : Config)
    (s : σ) : (Goldfinger.Bonds × Option ε) × σ :=
  loadBondsLoop GetBond config.Bonds {} s

/-- A retrieval that is a function `f` of the descriptor; the state is the list of the
descriptors retrieved so far. -/
def recorded {ε : Type} (f : ConfigBond → Except ε Bond) :
    ConfigBond → List ConfigBond → Except ε Bond × List ConfigBond :=
  fun b log => (f b, log ++ [b])

/-- A retrieval for the examples: series `EE` gives the matured record of the test suite
with the serial asked for, any other series is rejected as the server rejects it. -/
def sampleGet (d : ConfigBond) : Except BondError Bond :=
  if d.Series = "EE" then
    .ok { Serial := d.Serial, Series := "EE", Denomination := "$50", IssueDate := d.IssueDate,
          FinalMaturity := "01/2020", IssuePrice := "$25.00", Interest := "$78.68",
          Value := "$103.68", Note := "MA" }
  else .error .ErrInvalidDataReturned

/-! ## Theorems: the record mapper -/

/-- C1: whenever the extracted value sequence has a length other than 11, `parseBondData`
returns `ErrInvalidDataReturned` together with a `Bond` whose eleven fields are all empty. -/
theorem parseBondData_length_gate (R : Restify) (n : Node) (data : List String)
    (hdata : extractData R n = some data) (hlen : data.length ≠ 11) :
    parseBondData R n =
      some (⟨"", "", "", "", "", "", "", "", "", "", ""⟩, some BondError.ErrInvalidDataReturned) := by
  simp [parseBondData, hdata, hlen]

/-- Witness of C1: a document yielding seven values is rejected with an empty record. -/
theorem parseBondData_length_gate_witness :
    extractData restify docSeven =
        some ["abcdef", "AA", "$50", "01/2000", " ", "01/2030", "$25.00"] ∧
      parseBondData restify docSeven =
        some (⟨"", "", "", "", "", "", "", "", "", "", ""⟩, some BondError.ErrInvalidDataReturned) :=
  ⟨by decide, parseBondData_length_gate restify docSeven
    ["abcdef", "AA", "$50", "01/2000", " ", "01/2030", "$25.00"] (by decide) (by decide)⟩

/-- C2: whenever the extracted value sequence `s` has exactly 11 elements, `parseBondData`
returns no error and the `Bond` whose fields are the trimmed elements of `s` in the order
Serial, Series, Denomination, IssueDate, NextAccrual, FinalMaturity, IssuePrice, Interest,
InterestRate, Value, Note. -/
theorem parseBondData_positional (R : Restify) (n : Node) (s : List String)
    (hs : extractData R n = some s) (hlen : s.length = 11) :
    parseBondData R n =
      some ({ Serial := TrimSpace s[0], Series := TrimSpace s[1],
              Denomination := TrimSpace s[2], IssueDate := TrimSpace s[3],
              NextAccrual := TrimSpace s[4], FinalMaturity := TrimSpace s[5],
              IssuePrice := TrimSpace s[6], Interest := TrimSpace s[7],
              InterestRate := TrimSpace s[8], Value := TrimSpace s[9],
              Note := TrimSpace s[10] }, none) := by
  rcases s with _ | ⟨s0, _ | ⟨s1, _ | ⟨s2, _ | ⟨s3, _ | ⟨s4, _ | ⟨s5, _ | ⟨s6, _ | ⟨s7,
    _ | ⟨s8, _ | ⟨s9, _ | ⟨s10, _ | ⟨s11, t⟩⟩⟩⟩⟩⟩⟩⟩⟩⟩⟩⟩ <;>
    simp at hlen
  simp only [parseBondData, hs]
  rfl

/-- Witness of C2: the matured bond of the test suite is read field by field. -/
theorem parseBondData_positional_witness :
    parseBondData restify docMatured =
      some ({ Serial := "abcdef", Series := "EE", Denomination := "$50",
              IssueDate := "01/1990", NextAccrual := "", FinalMaturity := "01/2020",
              IssuePrice := "$25.00", Interest := "$78.68", InterestRate := "",
              Value := "$103.68", Note := "MA" }, none) :=
  (parseBondData_positional restify docMatured
    ["abcdef", "EE", " $50", "01/1990", " ", "01/2020 ", "$25.00", "$78.68", "\n",
      "$103.68", "MA"] (by decide) (by decide)).trans (by decide)

/-! ## Theorems: the unmatured filter -/

/-- The accumulating loop of `FindUnmaturedBonds` from any start `r`. -/
theorem foldl_unmatured (l r : List Bond) :
    l.foldl (fun r bd => if bd.Note ≠ "MA" then r ++ [bd] else r) r =
      r ++ l.filter (fun bd => decide (bd.Note ≠ "MA")) := by
  induction l generalizing r with
  | nil => simp
  | cons bd l ih =>
    rw [List.foldl_cons, ih, List.filter_cons]
    by_cases h : bd.Note = "MA" <;> simp [h]

/-- The result of `FindUnmaturedBonds` is the input filtered by `Note ≠ "MA"`. -/
theorem findUnmatured_eq_filter (b : Bonds) :
    b.FindUnmaturedBonds = b.Bonds.filter (fun bd => decide (bd.Note ≠ "MA")) := by
  unfold Bonds.FindUnmaturedBonds
  rw [foldl_unmatured, List.nil_append]

/-- C3: `FindUnmaturedBonds` returns the input filtered by `Note ≠ "MA"` (same order, same
multiplicity); a record with an empty note is kept; a collection holding only a record
with note `"MA"` yields nothing, and one holding a `"MA"` record and a record with an
empty note yields the latter alone. -/
theorem FindUnmaturedBonds_spec :
    (∀ b : Bonds, b.FindUnmaturedBonds = b.Bonds.filter (fun bd => decide (bd.Note ≠ "MA"))) ∧
    (∀ u : Bond, (Bonds.mk [{ u with Note := "" }]).FindUnmaturedBonds = [{ u with Note := "" }]) ∧
    (∀ m : Bond, (Bonds.mk [{ m with Note := "MA" }]).FindUnmaturedBonds = []) ∧
    (∀ m u : Bond,
      (Bonds.mk [{ m with Note := "MA" }, { u with Note := "" }]).FindUnmaturedBonds =
        [{ u with Note := "" }]) := by
  refine ⟨findUnmatured_eq_filter, ?_, ?_, ?_⟩
  · intro u
    simp [findUnmatured_eq_filter]
  · intro m
    simp [findUnmatured_eq_filter]
  · intro m u
    simp [findUnmatured_eq_filter]

/-- C4: `FindUnmaturedBonds` is idempotent: applied to the collection made of its own
result it returns that result. -/
theorem FindUnmaturedBonds_idempotent (c : Bonds) :
    (Bonds.mk c.FindUnmaturedBonds).FindUnmaturedBonds = c.FindUnmaturedBonds := by
  simp [findUnmatured_eq_filter, List.filter_filter]

/-! ## Lemmas: the sum loops -/

/-- Removing at most one `"$"` with `replaceAux` is erasing the first `'$'`. -/
theorem replaceAux_dollar (l : List Char) : replaceAux ['$'] [] 1 0 l = l.erase '$' := by
  induction l with
  | nil => rfl
  | cons c t ih =>
    by_cases h : c = '$'
    · subst h
      cases t <;> simp [replaceAux, List.isPrefixOf]
    · have h2 : ¬ '$' = c := fun h3 => h h3.symm
      simp [replaceAux, List.isPrefixOf, h, h2, ih]

/-- The call `strings.Replace(s, "$", "", 1)` removes the first `"$"` of `s`. -/
theorem Replace_dollar (s : String) : Replace s "$" "" 1 = stripFirstDollar s := by
  have h1 : ¬ (("$" : String) = "" ∨ (1 : Int) = 0) := by decide
  have h2 : ¬ (("$" : String).data = []) := by decide
  have h3 : ¬ ((1 : Int) < 0) := by decide
  unfold Replace stripFirstDollar
  rw [if_neg h1]
  simp only [h2, h3, if_false]
  exact congrArg String.mk (replaceAux_dollar s.data)

/-- The loop of `GetTotalPurchasedPrice` is the generic loop over `IssuePrice`. -/
theorem purchasedPriceLoop_eq (env : FloatEnv) (l : List Bond) (sum : env.Float64) :
    purchasedPriceLoop env l sum =
      sumFieldWith (fun t => Replace t "$" "" 1) env (fun b => b.IssuePrice) l sum := by
  induction l generalizing sum with
  | nil => rfl
  | cons b bs ih =>
    simp only [purchasedPriceLoop, sumFieldWith]
    split <;> simp_all

/-- The loop of `GetTotalValue` is the generic loop over `Value`. -/
theorem valueLoop_eq (env : FloatEnv) (l : List Bond) (sum : env.Float64) :
    valueLoop env l sum =
      sumFieldWith (fun t => Replace t "$" "" 1) env (fun b => b.Value) l sum := by
  induction l generalizing sum with
  | nil => rfl
  | cons b bs ih =>
    simp only [valueLoop, sumFieldWith]
    split <;> simp_all

/-- The loop of `GetTotalInterest` is the generic loop over `Interest`. -/
theorem interestLoop_eq (env : FloatEnv) (l : List Bond) (sum : env.Float64) :
    interestLoop env l sum =
      sumFieldWith (fun t => Replace t "$" "" 1) env (fun b => b.Interest) l sum := by
  induction l generalizing sum with
  | nil => rfl
  | cons b bs ih =>
    simp only [interestLoop, sumFieldWith]
    split <;> simp_all

/-- The generic loop on a list whose fields all parse. -/
theorem sumFieldWith_ok (env : FloatEnv) (field : Bond → String) (l : List Bond)
    (vs : List env.Float64) (sum : env.Float64)
    (h : List.Forall₂ (fun b v => parseField env field b = .ok v) l vs) :
    sumFieldWith (fun t => Replace t "$" "" 1) env field l sum = (vs.foldl env.add sum, none) := by
  induction h generalizing sum with
  | nil => rfl
  | cons hb _ ih =>
    simp only [sumFieldWith, List.foldl_cons]
    unfold parseField at hb
    rw [hb]
    exact ih _

/-- The generic loop on a list whose first failing record is `b`. -/
theorem sumFieldWith_error (env : FloatEnv) (field : Bond → String) (pre post : List Bond)
    (b : Bond) (e : env.NumError) (sum : env.Float64)
    (hpre : ∀ x ∈ pre, ∃ v, parseField env field x = .ok v)
    (hb : parseField env field b = .error e) :
    sumFieldWith (fun t => Replace t "$" "" 1) env field (pre ++ b :: post) sum =
      (env.zero, some e) := by
  induction pre generalizing sum with
  | nil =>
    unfold parseField at hb
    simp only [List.nil_append, sumFieldWith, hb]
  | cons x pre ih =>
    obtain ⟨v, hv⟩ := hpre x (List.mem_cons_self x pre)
    unfold parseField at hv
    simp only [List.cons_append, sumFieldWith, hv]
    exact ih _ (fun y hy => hpre y (List.mem_cons_of_mem x hy))

/-- The generic loop fails exactly when the field of some record does not parse. -/
theorem sumFieldWith_fails_iff (env : FloatEnv) (field : Bond → String) (l : List Bond)
    (sum : env.Float64) :
    (∃ err, (sumFieldWith (fun t => Replace t "$" "" 1) env field l sum).2 = some err) ↔
      ∃ b ∈ l, ∃ e, parseField env field b = .error e := by
  induction l generalizing sum with
  | nil => simp [sumFieldWith]
  | cons b bs ih =>
    cases hb : parseField env field b with
    | error e =>
      have hb2 := hb
      unfold parseField at hb2
      simp only [sumFieldWith, hb2]
      exact ⟨fun _ => ⟨b, List.mem_cons_self b bs, e, hb⟩, fun _ => ⟨e, rfl⟩⟩
    | ok v =>
      have hb2 := hb
      unfold parseField at hb2
      simp only [sumFieldWith, hb2, ih]
      constructor
      · rintro ⟨x, hx, e, he⟩
        exact ⟨x, List.mem_cons_of_mem b hx, e, he⟩
      · rintro ⟨x, hx, e, he⟩
        rcases List.mem_cons.mp hx with rfl | hx
        · rw [hb] at he
          cases he
        · exact ⟨x, hx, e, he⟩

/-- The error contract holds for the generic loop run from `0`. -/
theorem sumFieldWith_contract (env : FloatEnv) (field : Bond → String) :
    FailsAtFirstParseError env field
      (fun c => sumFieldWith (fun t => Replace t "$" "" 1) env field c.Bonds env.zero) := by
  intro c
  refine ⟨sumFieldWith_fails_iff env field c.Bonds env.zero, ?_⟩
  intro pre post b e hc hpre hb
  simp only [hc]
  exact sumFieldWith_error env field pre post b e env.zero hpre hb

/-- The generic loop reads the records through `field` only. -/
theorem sumFieldWith_congr (strip : String → String) (env : FloatEnv) (field : Bond → String)
    (l1 l2 : List Bond) (sum : env.Float64) (h : l1.map field = l2.map field) :
    sumFieldWith strip env field l1 sum = sumFieldWith strip env field l2 sum := by
  induction l1 generalizing l2 sum with
  | nil =>
    cases l2 with
    | nil => rfl
    | cons b bs => simp at h
  | cons a as ih =>
    cases l2 with
    | nil => simp at h
    | cons b bs =>
      simp only [List.map_cons, List.cons.injEq] at h
      simp only [sumFieldWith, h.1]
      split
      · rfl
      · exact ih bs _ h.2

/-- Each sum operation is the generic loop over its own field, run from `0`. -/
theorem totals_eq_generic (env : FloatEnv) (c : Bonds) :
    c.GetTotalPurchasedPrice env =
        sumFieldWith (fun t => Replace t "$" "" 1) env (fun b => b.IssuePrice) c.Bonds env.zero ∧
    c.GetTotalValue env =
        sumFieldWith (fun t => Replace t "$" "" 1) env (fun b => b.Value) c.Bonds env.zero ∧
    c.GetTotalInterest env =
        sumFieldWith (fun t => Replace t "$" "" 1) env (fun b => b.Interest) c.Bonds env.zero :=
  ⟨purchasedPriceLoop_eq env c.Bonds env.zero, valueLoop_eq env c.Bonds env.zero,
    interestLoop_eq env c.Bonds env.zero⟩

/-- The three sum operations coincide, as functions, with the generic loop. -/
theorem totals_funext (env : FloatEnv) :
    Bonds.GetTotalPurchasedPrice env =
        (fun c => sumFieldWith (fun t => Replace t "$" "" 1) env (fun b => b.IssuePrice)
          c.Bonds env.zero) ∧
    Bonds.GetTotalValue env =
        (fun c => sumFieldWith (fun t => Replace t "$" "" 1) env (fun b => b.Value)
          c.Bonds env.zero) ∧
    Bonds.GetTotalInterest env =
        (fun c => sumFieldWith (fun t => Replace t "$" "" 1) env (fun b => b.Interest)
          c.Bonds env.zero) :=
  ⟨funext fun c => (totals_eq_generic env c).1, funext fun c => (totals_eq_generic env c).2.1,
    funext fun c => (totals_eq_generic env c).2.2⟩

/-! ## Theorems: the sum operations -/

/-- C5: each of `GetTotalPurchasedPrice`, `GetTotalValue` and `GetTotalInterest` returns an
error exactly when the chosen field of some record, after the symbol is stripped, does not
parse; it then returns `0` and the parse error of the first such record. In particular,
for every parser that rejects `"N/A"`, summing the interest of records with interest
`"$78.68"` and `"N/A"` fails. -/
theorem sums_fail_at_first_parse_error (env : FloatEnv) :
    FailsAtFirstParseError env (fun b => b.IssuePrice) (Bonds.GetTotalPurchasedPrice env) ∧
    FailsAtFirstParseError env (fun b => b.Value) (Bonds.GetTotalValue env) ∧
    FailsAtFirstParseError env (fun b => b.Interest) (Bonds.GetTotalInterest env) ∧
    (∀ (b1 b2 : Bond) (e : env.NumError), env.ParseFloat "N/A" 32 = .error e →
      ∃ err, (Bonds.mk [{ b1 with Interest := "$78.68" },
          { b2 with Interest := "N/A" }]).GetTotalInterest env = (env.zero, some err)) := by
  obtain ⟨h1, h2, h3⟩ := totals_funext env
  refine ⟨?_, ?_, ?_, ?_⟩
  · rw [h1]
    exact sumFieldWith_contract env _
  · rw [h2]
    exact sumFieldWith_contract env _
  · rw [h3]
    exact sumFieldWith_contract env _
  · intro b1 b2 e he
    have hr : Replace "N/A" "$" "" 1 = "N/A" := by decide
    cases hp : env.ParseFloat (Replace "$78.68" "$" "" 1) 32 with
    | error e1 =>
      exact ⟨e1, by simp [Bonds.GetTotalInterest, interestLoop, hp]⟩
    | ok v =>
      exact ⟨e, by simp [Bonds.GetTotalInterest, interestLoop, hp, hr, he]⟩

/-- Witness of C5: with the reference parser, the interest sum over `"$78.68"` and `"N/A"`
returns `0` and the syntax error of `"N/A"`, the first record that does not parse. -/
theorem sums_fail_at_first_parse_error_witness :
    (Bonds.mk [{ Interest := "$78.68" }, { Interest := "N/A" }]).GetTotalInterest goFloat =
      (F64.fin false 0 0, some ⟨"ParseFloat", "N/A", .ErrSyntax⟩) :=
  ((sums_fail_at_first_parse_error goFloat).2.2.1
      (Bonds.mk [{ Interest := "$78.68" }, { Interest := "N/A" }])).2
    [{ Interest := "$78.68" }] [] { Interest := "N/A" } ⟨"ParseFloat", "N/A", .ErrSyntax⟩ rfl
    (fun x hx => ⟨F64.fin false 10312745 (-17), by
      rw [List.mem_singleton] at hx
      subst hx
      decide⟩)
    (by decide)

/-- Counterexample to C6: for the field text `"25$.00"`, whose only `"$"` is not at the
start, the text handed to the number parser is `"25.00"`: the symbol is removed, the
text is not the field with a leading symbol stripped, and the sum then succeeds. -/
theorem strip_leading_counterexample :
    Replace "25$.00" "$" "" 1 = "25.00" ∧
    Replace "25$.00" "$" "" 1 ≠ stripLeadingDollar "25$.00" ∧
    (Bonds.mk [{ IssuePrice := "25$.00" }]).GetTotalPurchasedPrice echoEnv = ((), some "25.00") ∧
    (Bonds.mk [{ Value := "25$.00" }]).GetTotalValue echoEnv = ((), some "25.00") ∧
    (Bonds.mk [{ Interest := "25$.00" }]).GetTotalInterest echoEnv = ((), some "25.00") ∧
    (Bonds.mk [{ Value := "25$.00" }]).GetTotalValue goFloat = (F64.fin false 25 0, none) := by
  decide

/-- C6, amended: in each of the three sum operations the text handed to the number parser
is the field text without its first `"$"`, wherever that stands: a text that starts with
`"$"` loses that character, a text without `"$"` is handed over unchanged, and a text
whose first `"$"` is further in loses it all the same. -/
theorem sums_strip_first_dollar (env : FloatEnv) (c : Bonds) :
    c.GetTotalPurchasedPrice env =
        sumFieldWith stripFirstDollar env (fun b => b.IssuePrice) c.Bonds env.zero ∧
    c.GetTotalValue env =
        sumFieldWith stripFirstDollar env (fun b => b.Value) c.Bonds env.zero ∧
    c.GetTotalInterest env =
        sumFieldWith stripFirstDollar env (fun b => b.Interest) c.Bonds env.zero ∧
    (∀ s : String, Replace s "$" "" 1 = stripFirstDollar s) ∧
    (∀ t : List Char, stripFirstDollar ⟨'$' :: t⟩ = ⟨t⟩) ∧
    (∀ s : String, '$' ∉ s.data → stripFirstDollar s = s) ∧
    (∀ pre post : List Char, '$' ∉ pre →
      stripFirstDollar ⟨pre ++ '$' :: post⟩ = ⟨pre ++ post⟩) := by
  have hf : (fun t => Replace t "$" "" 1) = stripFirstDollar := funext Replace_dollar
  obtain ⟨h1, h2, h3⟩ := totals_eq_generic env c
  rw [hf] at h1 h2 h3
  refine ⟨h1, h2, h3, Replace_dollar, ?_, ?_, ?_⟩
  · intro t
    simp [stripFirstDollar]
  · intro s hs
    simp [stripFirstDollar, List.erase_of_not_mem hs]
  · intro pre post hpre
    simp [stripFirstDollar, List.erase_append_right _ hpre]

/-- Witness of C6, amended: the texts `"$25.00"`, `"25.00"` and `"25$.00"` are all handed
to the parser as `"25.00"`. -/
theorem sums_strip_first_dollar_witness :
    stripFirstDollar "$25.00" = "25.00" ∧ stripFirstDollar "25.00" = "25.00" ∧
      stripFirstDollar "25$.00" = "25.00" :=
  have h := sums_strip_first_dollar goFloat (Bonds.mk [])
  ⟨h.2.2.2.2.1 "25.00".data, h.2.2.2.2.2.1 "25.00" (by decide),
    h.2.2.2.2.2.2 "25".data ".00".data (by decide)⟩

/-- C7: when the chosen field of every record parses after the symbol is stripped, each sum
operation returns no error and the left-to-right sum, from `0`, of the parsed values; the
empty collection gives `0`. With the reference parser and addition, two records with issue
price `"$25.00"` give a purchased price of exactly 50, hence within 0.01 of 50.00. -/
theorem sums_parsed_values :
    (∀ env : FloatEnv,
      SumsParsedValues env (fun b => b.IssuePrice) (Bonds.GetTotalPurchasedPrice env) ∧
      SumsParsedValues env (fun b => b.Value) (Bonds.GetTotalValue env) ∧
      SumsParsedValues env (fun b => b.Interest) (Bonds.GetTotalInterest env) ∧
      (Bonds.mk []).GetTotalPurchasedPrice env = (env.zero, none) ∧
      (Bonds.mk []).GetTotalValue env = (env.zero, none) ∧
      (Bonds.mk []).GetTotalInterest env = (env.zero, none)) ∧
    (∀ b1 b2 : Bond, ∃ (x : F64) (q : ℚ),
      (Bonds.mk [{ b1 with IssuePrice := "$25.00" },
          { b2 with IssuePrice := "$25.00" }]).GetTotalPurchasedPrice goFloat = (x, none) ∧
      x.toRat = some q ∧ |q - 50| ≤ 1 / 100) := by
  constructor
  · intro env
    refine ⟨?_, ?_, ?_, rfl, rfl, rfl⟩
    · intro c vs h
      rw [(totals_eq_generic env c).1]
      exact sumFieldWith_ok env _ c.Bonds vs env.zero h
    · intro c vs h
      rw [(totals_eq_generic env c).2.1]
      exact sumFieldWith_ok env _ c.Bonds vs env.zero h
    · intro c vs h
      rw [(totals_eq_generic env c).2.2]
      exact sumFieldWith_ok env _ c.Bonds vs env.zero h
  · intro b1 b2
    have hc : (Bonds.mk [{ b1 with IssuePrice := "$25.00" },
          { b2 with IssuePrice := "$25.00" }]).GetTotalPurchasedPrice goFloat =
        (Bonds.mk [{ IssuePrice := "$25.00" },
          { IssuePrice := "$25.00" }]).GetTotalPurchasedPrice goFloat := by
      rw [(totals_eq_generic goFloat _).1, (totals_eq_generic goFloat _).1]
      exact sumFieldWith_congr _ goFloat _ _ _ _ rfl
    have hv : (Bonds.mk [{ IssuePrice := "$25.00" },
          { IssuePrice := "$25.00" }]).GetTotalPurchasedPrice goFloat =
        (F64.fin false 25 1, none) := by decide
    refine ⟨F64.fin false 25 1, 50, hc.trans hv, ?_, ?_⟩
    · simp only [F64.toRat]
      norm_num
    · norm_num

/-- Witness of C7: with the reference parser and addition, the values `"$103.68"` and
`"$25.00"` sum to `0 + 103.68 + 25`, the first term as rounded to `float32`. -/
theorem sums_parsed_values_witness :
    (Bonds.mk [{ Value := "$103.68" }, { Value := "$25.00" }]).GetTotalValue goFloat =
      ([F64.fin false 13589545 (-17), F64.fin false 25 0].foldl F64.add (F64.fin false 0 0), none) :=
  (sums_parsed_values.1 goFloat).2.1 (Bonds.mk [{ Value := "$103.68" }, { Value := "$25.00" }])
    [F64.fin false 13589545 (-17), F64.fin false 25 0]
    (List.Forall₂.cons (by decide) (List.Forall₂.cons (by decide) List.Forall₂.nil))

/-- C8: each sum operation reads the records through its own field only: two collections
that agree, record by record, on the issue prices have the same purchased-price result,
and likewise for the values and the value sum, and for the interests and the interest sum.
Hence changing the interest of the records, for instance to texts that do not parse,
changes neither the value sum nor the purchased-price sum. -/
theorem sums_isolated (env : FloatEnv) (c1 c2 : Bonds) :
    (c1.Bonds.map (fun b => b.IssuePrice) = c2.Bonds.map (fun b => b.IssuePrice) →
      c1.GetTotalPurchasedPrice env = c2.GetTotalPurchasedPrice env) ∧
    (c1.Bonds.map (fun b => b.Value) = c2.Bonds.map (fun b => b.Value) →
      c1.GetTotalValue env = c2.GetTotalValue env) ∧
    (c1.Bonds.map (fun b => b.Interest) = c2.Bonds.map (fun b => b.Interest) →
      c1.GetTotalInterest env = c2.GetTotalInterest env) ∧
    (∀ f : Bond → String,
      (Bonds.mk (c1.Bonds.map (fun b => { b with Interest := f b }))).GetTotalValue env =
        c1.GetTotalValue env ∧
      (Bonds.mk (c1.Bonds.map (fun b => { b with Interest := f b }))).GetTotalPurchasedPrice env =
        c1.GetTotalPurchasedPrice env) := by
  refine ⟨?_, ?_, ?_, ?_⟩
  · intro h
    rw [(totals_eq_generic env c1).1, (totals_eq_generic env c2).1]
    exact sumFieldWith_congr _ env _ _ _ _ h
  · intro h
    rw [(totals_eq_generic env c1).2.1, (totals_eq_generic env c2).2.1]
    exact sumFieldWith_congr _ env _ _ _ _ h
  · intro h
    rw [(totals_eq_generic env c1).2.2, (totals_eq_generic env c2).2.2]
    exact sumFieldWith_congr _ env _ _ _ _ h
  · intro f
    constructor
    · rw [(totals_eq_generic env c1).2.1, (totals_eq_generic env _).2.1]
      exact sumFieldWith_congr _ env _ _ _ _ (by simp [List.map_map, Function.comp_def])
    · rw [(totals_eq_generic env c1).1, (totals_eq_generic env _).1]
      exact sumFieldWith_congr _ env _ _ _ _ (by simp [List.map_map, Function.comp_def])

/-- Witness of C8: a record whose interest is `"N/A"` and one whose interest is `"$78.68"`
have the same value sum, 103.68 as rounded to `float32`, although the interest sum of the
first fails. -/
theorem sums_isolated_witness :
    (Bonds.mk [{ Value := "$103.68", Interest := "N/A" }]).GetTotalValue goFloat =
        (Bonds.mk [{ Value := "$103.68", Interest := "$78.68" }]).GetTotalValue goFloat ∧
      (Bonds.mk [{ Value := "$103.68", Interest := "N/A" }]).GetTotalValue goFloat =
        (F64.fin false 13589545 (-17), none) ∧
      (Bonds.mk [{ Value := "$103.68", Interest := "N/A" }]).GetTotalInterest goFloat =
        (F64.fin false 0 0, some ⟨"ParseFloat", "N/A", .ErrSyntax⟩) :=
  ⟨(sums_isolated goFloat (Bonds.mk [{ Value := "$103.68", Interest := "N/A" }])
      (Bonds.mk [{ Value := "$103.68", Interest := "$78.68" }])).2.1 (by decide),
    by decide, by decide⟩

/-! ## Theorems: the cell classifier -/

/-- A cell whose first child has the data `"input"` leaves the loop state as it is. -/
theorem cellStep_input (R : Restify) (st : LoopState) (cell fc : Node)
    (hfc : cell.FirstChild = some fc) (hd : fc.Data = "input") :
    cellStep R st cell = some st := by
  have h1 : ¬ (("input" : String) = "strong") := by decide
  have h2 : ¬ (("input" : String) = "a") := by decide
  simp [cellStep, hfc, hd, h1, h2]

/-- The loop over the cells of a row, over two lists of cells one after the other. -/
theorem cellsLoop_append (R : Restify) (l1 l2 : List Node) (st : LoopState) :
    cellsLoop R (l1 ++ l2) st =
      match cellsLoop R l1 st with
      | none => none
      | some st1 => cellsLoop R l2 st1 := by
  induction l1 generalizing st with
  | nil => rfl
  | cons c l1 ih =>
    simp only [List.cons_append, cellsLoop]
    cases cellStep R st c with
    | none => rfl
    | some st1 => exact ih st1

/-- The assignment loop over the elements found ends with the first-child data of the
last of them, when each has a first child. -/
theorem lastChildData_append (xs : List Node) (x c : Node) (val : String)
    (hxs : ∀ y ∈ xs, y.FirstChild ≠ none) (hx : x.FirstChild = some c) :
    lastChildData (xs ++ [x]) val = some c.Data := by
  induction xs generalizing val with
  | nil => simp [lastChildData, hx]
  | cons y ys ih =>
    have hy := hxs y (List.mem_cons_self y ys)
    cases hyc : y.FirstChild with
    | none => exact absurd hyc hy
    | some d =>
      simp only [List.cons_append, lastChildData, hyc]
      exact ih d.Data (fun z hz => hxs z (List.mem_cons_of_mem y hz))

/-- C9: a cell whose first child is an `input` element adds nothing to the extracted
values: the step over it leaves `data` (and `val`) as they are, the loop over the cells of
a row returns what it returns on the cells without that one, and so does the loop over
rows when the cells of a row differ by that cell only. -/
theorem input_cell_skipped (R : Restify) (st : LoopState) (cell fc : Node)
    (hfc : cell.FirstChild = some fc) (hd : fc.Data = "input") :
    cellStep R st cell = some st ∧
    (∀ (pre post : List Node) (s0 : LoopState),
      cellsLoop R (pre ++ cell :: post) s0 = cellsLoop R (pre ++ post) s0) ∧
    (∀ (row row1 : Node) (rows pre post : List Node) (s0 : LoopState),
      R.FindSubsetByTagName row "td" = pre ++ cell :: post →
      R.FindSubsetByTagName row1 "td" = pre ++ post →
      rowsLoop R (row :: rows) s0 = rowsLoop R (row1 :: rows) s0) := by
  have hcells : ∀ (pre post : List Node) (s0 : LoopState),
      cellsLoop R (pre ++ cell :: post) s0 = cellsLoop R (pre ++ post) s0 := by
    intro pre post s0
    rw [cellsLoop_append, cellsLoop_append]
    cases cellsLoop R pre s0 with
    | none => rfl
    | some st1 => simp only [cellsLoop, cellStep_input R st1 cell fc hfc hd]
  refine ⟨cellStep_input R st cell fc hfc hd, hcells, ?_⟩
  intro row row1 rows pre post s0 h h1
  simp only [rowsLoop, h, h1, hcells]

/-- Witness of C9: a row with a form-control cell before two text cells yields the two
texts, as the row without that cell does. -/
theorem input_cell_skipped_witness :
    cellsLoop restify rowWithInput ⟨[], ""⟩ = some ⟨["abcdef", "EE"], "EE"⟩ ∧
      cellsLoop restify rowWithInput ⟨[], ""⟩ =
        cellsLoop restify [tdText "abcdef", tdText "EE"] ⟨[], ""⟩ :=
  ⟨by decide,
    (input_cell_skipped restify ⟨[], ""⟩
      (.elem "td" [] [.elem "input" [⟨"", "type", "checkbox"⟩] []])
      (.elem "input" [⟨"", "type", "checkbox"⟩] []) rfl rfl).2.1 []
      [tdText "abcdef", tdText "EE"] ⟨[], ""⟩⟩

/-- Counterexample to C10: in a cell holding two emphasis elements with the texts `"A"` and
`"B"`, the first child is the emphasis element with the text `"A"`, yet the value the cell
contributes is `"B"`; the same holds with two hyperlinks; and a document whose serial cell
is such a cell yields the serial `"B"`. -/
theorem first_emphasis_counterexample :
    (cellTwoStrong.FirstChild = some (.elem "strong" [] [.text "A"]) ∧
      cellStep restify ⟨[], ""⟩ cellTwoStrong = some ⟨["B"], "B"⟩) ∧
    (cellTwoLinks.FirstChild = some (.elem "a" [⟨"", "href", "#1"⟩] [.text "A"]) ∧
      cellStep restify ⟨[], ""⟩ cellTwoLinks = some ⟨["B"], "B"⟩) ∧
    (parseBondData restify docTwoStrong).map (fun r => (r.1.Serial, r.2)) =
      some ("B", none) :=
  ⟨⟨rfl, by decide⟩, ⟨rfl, by decide⟩, by decide⟩

/-- C10, amended: for a cell whose first child is a `strong` element (or an `a` element),
when each element that `FindSubsetByTagName` finds for that tag in the cell has a first
child, the value the cell contributes is the text of the first child of the last element
found; so it is the text of the first child of the cell's first child when the search
finds that element alone. -/
theorem emphasis_cell_last_found (R : Restify) (st : LoopState) (cell fc : Node) (tag : String)
    (htag : tag = "strong" ∨ tag = "a")
    (hfc : cell.FirstChild = some fc) (hd : fc.Data = tag) :
    (∀ (xs : List Node) (x c : Node),
      R.FindSubsetByTagName cell tag = xs ++ [x] →
      (∀ y ∈ xs, y.FirstChild ≠ none) → x.FirstChild = some c →
      cellStep R st cell = some ⟨st.data ++ [c.Data], c.Data⟩) ∧
    (∀ c : Node, R.FindSubsetByTagName cell tag = [fc] → fc.FirstChild = some c →
      cellStep R st cell = some ⟨st.data ++ [c.Data], c.Data⟩) := by
  have hgen : ∀ (xs : List Node) (x c : Node),
      R.FindSubsetByTagName cell tag = xs ++ [x] →
      (∀ y ∈ xs, y.FirstChild ≠ none) → x.FirstChild = some c →
      cellStep R st cell = some ⟨st.data ++ [c.Data], c.Data⟩ := by
    intro xs x c hfind hxs hx
    have hl := lastChildData_append xs x c st.val hxs hx
    have h1 : ¬ (("a" : String) = "strong") := by decide
    rcases htag with rfl | rfl
    · simp [cellStep, hfc, hd, hfind, hl]
    · simp [cellStep, hfc, hd, hfind, hl, h1]
  refine ⟨hgen, ?_⟩
  intro c hfind hc
  exact hgen [] fc c (by simpa using hfind) (by simp) hc

/-- Witness of C10, amended: in the cell with two emphasis elements the search finds both,
and the value is the text `"B"` of the last. -/
theorem emphasis_cell_last_found_witness :
    cellStep restify ⟨["x"], "x"⟩ cellTwoStrong = some ⟨["x", "B"], "B"⟩ :=
  (emphasis_cell_last_found restify ⟨["x"], "x"⟩ cellTwoStrong
      (.elem "strong" [] [.text "A"]) "strong" (Or.inl rfl) rfl rfl).1
    [.elem "strong" [] [.text "A"]] (.elem "strong" [] [.text "B"]) (.text "B") rfl
    (fun y hy => by
      rw [List.mem_singleton] at hy
      subst hy
      simp [Node.FirstChild, Node.children, Node.elem])
    rfl

/-- A cell whose first child carries none of the data `"strong"`, `"a"`, `"input"` adds
the data of that child to the values. -/
theorem cellStep_plain (R : Restify) (st : LoopState) (cell fc : Node)
    (hfc : cell.FirstChild = some fc) (h1 : fc.Data ≠ "strong") (h2 : fc.Data ≠ "a")
    (h3 : fc.Data ≠ "input") :
    cellStep R st cell = some ⟨st.data ++ [fc.Data], fc.Data⟩ := by
  simp [cellStep, hfc, h1, h2, h3]

/-- A cell without a first child makes the step over it panic. -/
theorem cellStep_nil (R : Restify) (st : LoopState) (cell : Node)
    (hfc : cell.FirstChild = none) : cellStep R st cell = none := by
  simp [cellStep, hfc]

/-- C11, the code at the failing inputs: a cell whose only child is the text `input` adds
no value, whatever the finders are; with the reference finders, in a row of the text cells
`abcdef`, `input` and `strong`, the second adds nothing and the third adds the value
`abcdef` left by the first instead of its own text; and a document whose second of eleven
cells reads `input` is rejected for having ten values. -/
theorem text_cell_reading_as_tag :
    (∀ (R : Restify) (st : LoopState), cellStep R st (tdText "input") = some st) ∧
    cellsLoop restify rowTagWords ⟨[], ""⟩ = some ⟨["abcdef", "abcdef"], "abcdef"⟩ ∧
    parseBondData restify docInputWord =
      some ({}, some BondError.ErrInvalidDataReturned) := by
  refine ⟨?_, by decide, by decide⟩
  intro R st
  exact cellStep_input R st (tdText "input") (.text "input") rfl rfl

/-- C12, the code at the failing inputs: on a document whose highlighted row has an empty
cell, and on one whose emphasis element has no content, `parseBondData` dereferences the
absent first child and panics; it returns no record and no error. -/
theorem empty_cell_panics :
    (∀ (R : Restify) (st : LoopState), cellStep R st (.elem "td" [] []) = none) ∧
    extractData restify docEmptyCell = none ∧
    parseBondData restify docEmptyCell = none ∧
    parseBondData restify docEmptyStrong = none := by
  refine ⟨?_, by decide, by decide, by decide⟩
  intro R st
  exact cellStep_nil R st (.elem "td" [] []) rfl

/-! ## Theorems: the row extractor -/

/-- C13: when the document has no node of class `bnddata`, or when none of its `bnddata`
nodes has a node of class `altrow1`, the extracted value sequence is empty and
`parseBondData` returns `ErrInvalidDataReturned` with an empty record. -/
theorem no_row_rejected (R : Restify) (n : Node)
    (h : ∀ nodes ∈ R.FindSubsetByClass n "bnddata", R.FindSubsetByClass nodes "altrow1" = []) :
    extractData R n = some [] ∧
    parseBondData R n = some ({}, some BondError.ErrInvalidDataReturned) := by
  have hloop : ∀ (l : List Node) (st : LoopState),
      (∀ nodes ∈ l, R.FindSubsetByClass nodes "altrow1" = []) →
      containersLoop R l st = some st := by
    intro l
    induction l with
    | nil => intro st _; rfl
    | cons c cs ih =>
      intro st hl
      simp only [containersLoop, hl c (List.mem_cons_self c cs), rowsLoop]
      exact ih st (fun x hx => hl x (List.mem_cons_of_mem c hx))
  have he : extractData R n = some [] := by
    simp only [extractData, hloop _ _ h]
  exact ⟨he, by simp [parseBondData, he]⟩

/-- Witness of C13: a page without a `bnddata` node, and a page whose `bnddata` table has
no highlighted row, are both rejected with `ErrInvalidDataReturned`. -/
theorem no_row_rejected_witness :
    restify.FindSubsetByClass docNoContainer "bnddata" = [] ∧
      parseBondData restify docNoContainer =
        some ({}, some BondError.ErrInvalidDataReturned) ∧
      parseBondData restify docNoRow = some ({}, some BondError.ErrInvalidDataReturned) :=
  ⟨rfl,
    (no_row_rejected restify docNoContainer (fun nodes hn => by
      have h0 : restify.FindSubsetByClass docNoContainer "bnddata" = [] := rfl
      rw [h0] at hn
      cases hn)).2,
    (no_row_rejected restify docNoRow (fun nodes hn => by
      have h0 : restify.FindSubsetByClass docNoRow "bnddata" =
          [.elem "table" [⟨"", "class", "bnddata"⟩] [.elem "tbody" [] [
            .elem "tr" [] [.elem "th" [] [.text "Serial #"]]]]] := rfl
      rw [h0, List.mem_singleton] at hn
      subst hn
      rfl)).2⟩

/-- The characters left by `TrimSpace` do not start with white space. -/
theorem dropWhile_trimRight (l : List Char) :
    (trimRight (l.dropWhile isSpace)).dropWhile isSpace = trimRight (l.dropWhile isSpace) := by
  have hconcat : ∀ (u : List Char) (c : Char), isSpace c = false →
      (u ++ [c]).dropWhile isSpace = u.dropWhile isSpace ++ [c] := by
    intro u c hc
    induction u with
    | nil => simp [List.dropWhile, hc]
    | cons a u ih =>
      cases ha : isSpace a
      · simp [List.dropWhile, ha]
      · simp [List.dropWhile, ha, ih]
  cases hm : l.dropWhile isSpace with
  | nil => rfl
  | cons c t =>
    have hc : isSpace c = false := by
      have h := List.head_dropWhile_not isSpace l (by rw [hm]; exact List.cons_ne_nil c t)
      simpa [hm] using h
    have ht : trimRight (c :: t) = c :: trimRight t := by
      simp [trimRight, hconcat _ c hc]
    rw [ht]
    simp [List.dropWhile, hc]

/-- The characters left by `TrimSpace` do not end with white space. -/
theorem trimRight_trimRight (l : List Char) : trimRight (trimRight l) = trimRight l := by
  simp [trimRight, List.dropWhile_idempotent]

/-- Trimming a trimmed text changes nothing. -/
theorem TrimSpace_idempotent (s : String) : TrimSpace (TrimSpace s) = TrimSpace s := by
  simp only [TrimSpace]
  rw [dropWhile_trimRight, trimRight_trimRight]

/-- The step over a cell appends to `data` without reading it. -/
theorem cellStep_data (R : Restify) (d : List String) (v : String) (cell : Node) :
    cellStep R ⟨d, v⟩ cell =
      (cellStep R ⟨[], v⟩ cell).map (fun st => ⟨d ++ st.data, st.val⟩) := by
  unfold cellStep
  cases cell.FirstChild with
  | none => rfl
  | some fc =>
    simp only
    split
    · cases lastChildData (R.FindSubsetByTagName cell "strong") v <;> simp
    · split
      · cases lastChildData (R.FindSubsetByTagName cell "a") v <;> simp
      · split <;> simp

/-- The loop over cells appends to `data` without reading it. -/
theorem cellsLoop_data (R : Restify) (cells : List Node) (d : List String) (v : String) :
    cellsLoop R cells ⟨d, v⟩ =
      (cellsLoop R cells ⟨[], v⟩).map (fun st => ⟨d ++ st.data, st.val⟩) := by
  induction cells generalizing d v with
  | nil => simp [cellsLoop]
  | cons c cs ih =>
    simp only [cellsLoop]
    rw [cellStep_data R d v c]
    cases cellStep R ⟨[], v⟩ c with
    | none => rfl
    | some st1 =>
      obtain ⟨d1, v1⟩ := st1
      simp only [Option.map_some']
      rw [ih (d ++ d1) v1, ih d1 v1]
      cases cellsLoop R cs ⟨[], v1⟩ <;> simp

/-- The loop over rows is the loop over their cells, one row after the other. -/
theorem rowsLoop_eq_cellsLoop (R : Restify) (rows : List Node) (st : LoopState) :
    rowsLoop R rows st =
      cellsLoop R (rows.flatMap (fun ns => R.FindSubsetByTagName ns "td")) st := by
  induction rows generalizing st with
  | nil => rfl
  | cons r rs ih =>
    simp only [rowsLoop, List.flatMap_cons, cellsLoop_append]
    cases cellsLoop R (R.FindSubsetByTagName r "td") st with
    | none => rfl
    | some st1 => exact ih st1

/-- The loop over containers is the loop over their rows, one container after the other. -/
theorem containersLoop_eq_rowsLoop (R : Restify) (cs : List Node) (st : LoopState) :
    containersLoop R cs st =
      rowsLoop R (cs.flatMap (fun nodes => R.FindSubsetByClass nodes "altrow1")) st := by
  induction cs generalizing st with
  | nil => rfl
  | cons c cs ih =>
    simp only [containersLoop, List.flatMap_cons, rowsLoop_eq_cellsLoop, List.flatMap_append,
      cellsLoop_append]
    cases cellsLoop R ((R.FindSubsetByClass c "altrow1").flatMap
        (fun ns => R.FindSubsetByTagName ns "td")) st with
    | none => rfl
    | some st1 =>
      simp only
      rw [ih st1, rowsLoop_eq_cellsLoop]

/-- The extracted values are those of one pass over the visited cells. -/
theorem extractData_eq (R : Restify) (n : Node) :
    extractData R n = (cellsLoop R (visitedCells R n) ⟨[], ""⟩).map (fun st => st.data) := by
  unfold extractData visitedCells
  rw [containersLoop_eq_rowsLoop, rowsLoop_eq_cellsLoop]
  cases cellsLoop R _ ⟨[], ""⟩ <;> rfl

/-- The assignment loop over elements that all have a first child returns a value, which
is the value it started with when there is no element. -/
theorem lastChildData_total (xs : List Node) (val : String)
    (hxs : ∀ x ∈ xs, x.FirstChild ≠ none) :
    ∃ v, lastChildData xs val = some v := by
  induction xs generalizing val with
  | nil => exact ⟨val, rfl⟩
  | cons x xs ih =>
    cases hx : x.FirstChild with
    | none => exact absurd hx (hxs x (List.mem_cons_self x xs))
    | some c =>
      simp only [lastChildData, hx]
      exact ih c.Data (fun y hy => hxs y (List.mem_cons_of_mem x hy))

/-- The step over a readable cell: nothing for an `input` cell, one value otherwise, which
is then also the content of `val`. -/
theorem cellStep_readable (R : Restify) (st : LoopState) (cell : Node)
    (h : CellReadable R cell) :
    (firstChildIsInput cell = true ∧ cellStep R st cell = some st) ∨
    (firstChildIsInput cell = false ∧ ∃ v, cellStep R st cell = some ⟨st.data ++ [v], v⟩) := by
  obtain ⟨fc, hfc, hs, ha⟩ := h
  by_cases h1 : fc.Data = "strong"
  · right
    have hi : ¬ (fc.Data = "input") := by rw [h1]; decide
    obtain ⟨v, hv⟩ := lastChildData_total _ st.val (hs h1)
    exact ⟨by simp [firstChildIsInput, hfc, hi], v, by simp [cellStep, hfc, h1, hv]⟩
  · by_cases h2 : fc.Data = "a"
    · right
      have hi : ¬ (fc.Data = "input") := by rw [h2]; decide
      obtain ⟨v, hv⟩ := lastChildData_total _ st.val (ha h2)
      exact ⟨by simp [firstChildIsInput, hfc, hi], v, by simp [cellStep, hfc, h1, h2, hv]⟩
    · by_cases h3 : fc.Data = "input"
      · left
        exact ⟨by simp [firstChildIsInput, hfc, h3], cellStep_input R st cell fc hfc h3⟩
      · right
        exact ⟨by simp [firstChildIsInput, hfc, h3], fc.Data,
          cellStep_plain R st cell fc hfc h1 h2 h3⟩

/-- The loop over readable cells returns, with one value more for each cell that is not an
`input` cell. -/
theorem cellsLoop_count (R : Restify) (cells : List Node) (st : LoopState)
    (h : ∀ c ∈ cells, CellReadable R c) :
    ∃ st1, cellsLoop R cells st = some st1 ∧
      st1.data.length =
        st.data.length + (cells.filter (fun c => !firstChildIsInput c)).length := by
  induction cells generalizing st with
  | nil => exact ⟨st, rfl, by simp⟩
  | cons c cs ih =>
    have hc := h c (List.mem_cons_self c cs)
    have hcs : ∀ x ∈ cs, CellReadable R x := fun x hx => h x (List.mem_cons_of_mem c hx)
    rcases cellStep_readable R st c hc with ⟨hi, hstep⟩ | ⟨hi, v, hstep⟩
    · obtain ⟨st1, hl, hlen⟩ := ih st hcs
      exact ⟨st1, by simp only [cellsLoop, hstep, hl], by simp [List.filter_cons, hi, hlen]⟩
    · obtain ⟨st1, hl, hlen⟩ := ih ⟨st.data ++ [v], v⟩ hcs
      refine ⟨st1, by simp only [cellsLoop, hstep, hl], ?_⟩
      simp [List.filter_cons, hi, hlen]
      omega

/-- After each step of the extraction, `val` is the last value appended, or the empty text
when nothing was appended yet. -/
theorem cellsLoop_val (R : Restify) (cells : List Node) (st st1 : LoopState)
    (hst : st.val = st.data.getLast?.getD "") (h : cellsLoop R cells st = some st1) :
    st1.val = st1.data.getLast?.getD "" := by
  induction cells generalizing st with
  | nil =>
    simp only [cellsLoop, Option.some.injEq] at h
    rw [← h]
    exact hst
  | cons c cs ih =>
    simp only [cellsLoop] at h
    cases hstep : cellStep R st c with
    | none => simp [hstep] at h
    | some st2 =>
      rw [hstep] at h
      refine ih st2 ?_ h
      unfold cellStep at hstep
      cases hfc : c.FirstChild with
      | none => simp [hfc] at hstep
      | some fc =>
        simp only [hfc] at hstep
        split at hstep
        · cases hl : lastChildData (R.FindSubsetByTagName c "strong") st.val with
          | none => simp [hl] at hstep
          | some v =>
            simp only [hl, Option.some.injEq] at hstep
            rw [← hstep]
            simp
        · split at hstep
          · cases hl : lastChildData (R.FindSubsetByTagName c "a") st.val with
            | none => simp [hl] at hstep
            | some v =>
              simp only [hl, Option.some.injEq] at hstep
              rw [← hstep]
              simp
          · split at hstep
            · simp only [Option.some.injEq] at hstep
              rw [← hstep]
              exact hst
            · simp only [Option.some.injEq] at hstep
              rw [← hstep]
              simp

/-- The record assigned from eleven values. -/
theorem assignFields_eleven (s0 s1 s2 s3 s4 s5 s6 s7 s8 s9 s10 : String) :
    assignFields [s0, s1, s2, s3, s4, s5, s6, s7, s8, s9, s10] =
      { Serial := TrimSpace s0, Series := TrimSpace s1, Denomination := TrimSpace s2,
        IssueDate := TrimSpace s3, NextAccrual := TrimSpace s4, FinalMaturity := TrimSpace s5,
        IssuePrice := TrimSpace s6, Interest := TrimSpace s7, InterestRate := TrimSpace s8,
        Value := TrimSpace s9, Note := TrimSpace s10 } :=
  rfl

/-- With the reference finders, a cell holding one text node is readable. -/
theorem readable_tdText (s : String) : CellReadable restify (tdText s) := by
  refine ⟨.text s, rfl, ?_, ?_⟩
  · intro _ x hx
    have h0 : restify.FindSubsetByTagName (tdText s) "strong" = [] := rfl
    rw [h0] at hx
    cases hx
  · intro _ x hx
    have h0 : restify.FindSubsetByTagName (tdText s) "a" = [] := rfl
    rw [h0] at hx
    cases hx

/-- C18: every field of a record that `parseBondData` returns without error is trimmed:
trimming it again leaves it unchanged. -/
theorem record_fields_trimmed (R : Restify) (n : Node) (b : Bond)
    (h : parseBondData R n = some (b, none)) :
    TrimSpace b.Serial = b.Serial ∧ TrimSpace b.Series = b.Series ∧
    TrimSpace b.Denomination = b.Denomination ∧ TrimSpace b.IssueDate = b.IssueDate ∧
    TrimSpace b.NextAccrual = b.NextAccrual ∧ TrimSpace b.FinalMaturity = b.FinalMaturity ∧
    TrimSpace b.IssuePrice = b.IssuePrice ∧ TrimSpace b.Interest = b.Interest ∧
    TrimSpace b.InterestRate = b.InterestRate ∧ TrimSpace b.Value = b.Value ∧
    TrimSpace b.Note = b.Note := by
  unfold parseBondData at h
  cases hd : extractData R n with
  | none => simp [hd] at h
  | some data =>
    simp only [hd] at h
    by_cases hlen : data.length = 11
    · rcases data with _ | ⟨s0, _ | ⟨s1, _ | ⟨s2, _ | ⟨s3, _ | ⟨s4, _ | ⟨s5, _ | ⟨s6,
        _ | ⟨s7, _ | ⟨s8, _ | ⟨s9, _ | ⟨s10, _ | ⟨s11, t⟩⟩⟩⟩⟩⟩⟩⟩⟩⟩⟩⟩ <;>
        simp at hlen
      simp only [List.length_cons, List.length_nil, ne_eq, not_true_eq_false, if_false,
        Option.some.injEq, Prod.mk.injEq, and_true] at h
      rw [assignFields_eleven] at h
      subst h
      simp only [TrimSpace_idempotent, and_self]
    · simp [hlen] at h

/-- Witness of C18: the fields read from the matured bond of the test suite, some of whose
cells carry white space around the text, are trimmed. -/
theorem record_fields_trimmed_witness :
    TrimSpace "$50" = "$50" ∧ TrimSpace "01/2020" = "01/2020" ∧ TrimSpace "" = "" :=
  have h := record_fields_trimmed restify docMatured
    { Serial := "abcdef", Series := "EE", Denomination := "$50",
      IssueDate := "01/1990", NextAccrual := "", FinalMaturity := "01/2020",
      IssuePrice := "$25.00", Interest := "$78.68", InterestRate := "",
      Value := "$103.68", Note := "MA" } (by decide)
  ⟨h.2.2.1, h.2.2.2.2.2.1, h.2.2.2.2.1⟩

/-- C19: the extracted sequence is produced by one pass over the cells of every `altrow1`
row of every `bnddata` container, in the order they are found; the values of two runs of
cells are the values of the first followed by the values of the second; hence a document
with one container and two highlighted rows of eleven readable cells each, none of them an
`input` cell, yields 22 values and is rejected with `ErrInvalidDataReturned`. -/
theorem sequence_spans_all_rows (R : Restify) (n : Node) :
    extractData R n = (cellsLoop R (visitedCells R n) ⟨[], ""⟩).map (fun st => st.data) ∧
    (∀ (cells1 cells2 : List Node) (v : String),
      cellsLoop R (cells1 ++ cells2) ⟨[], v⟩ =
        match cellsLoop R cells1 ⟨[], v⟩ with
        | none => none
        | some s1 =>
          (cellsLoop R cells2 ⟨[], s1.val⟩).map (fun s2 => ⟨s1.data ++ s2.data, s2.val⟩)) ∧
    (∀ (c r1 r2 : Node),
      R.FindSubsetByClass n "bnddata" = [c] →
      R.FindSubsetByClass c "altrow1" = [r1, r2] →
      (R.FindSubsetByTagName r1 "td").length = 11 →
      (R.FindSubsetByTagName r2 "td").length = 11 →
      (∀ cell ∈ R.FindSubsetByTagName r1 "td" ++ R.FindSubsetByTagName r2 "td",
        CellReadable R cell ∧ firstChildIsInput cell = false) →
      ∃ data, extractData R n = some data ∧ data.length = 22 ∧
        parseBondData R n = some ({}, some BondError.ErrInvalidDataReturned)) := by
  refine ⟨extractData_eq R n, ?_, ?_⟩
  · intro cells1 cells2 v
    rw [cellsLoop_append]
    cases cellsLoop R cells1 ⟨[], v⟩ with
    | none => rfl
    | some s1 =>
      obtain ⟨d1, v1⟩ := s1
      exact cellsLoop_data R cells2 d1 v1
  · intro c r1 r2 hc hr h1 h2 hcells
    have hv : visitedCells R n = R.FindSubsetByTagName r1 "td" ++ R.FindSubsetByTagName r2 "td" := by
      simp [visitedCells, hc, hr]
    obtain ⟨st1, hl, hlen⟩ := cellsLoop_count R (visitedCells R n) ⟨[], ""⟩
      (fun x hx => (hcells x (hv ▸ hx)).1)
    have hfilter : (visitedCells R n).filter (fun c => !firstChildIsInput c) = visitedCells R n := by
      rw [List.filter_eq_self]
      intro x hx
      simp [(hcells x (hv ▸ hx)).2]
    have hd : extractData R n = some st1.data := by
      rw [extractData_eq, hl]
      rfl
    have h22 : st1.data.length = 22 := by
      rw [hlen, hfilter, hv, List.length_append, h1, h2]
      rfl
    refine ⟨st1.data, hd, h22, ?_⟩
    simp [parseBondData, hd, h22]

/-- Witness of C19: with the reference finders, the document with two highlighted rows of
eleven text cells is rejected. -/
theorem sequence_spans_all_rows_witness :
    ∃ data, extractData restify docTwoRows = some data ∧ data.length = 22 ∧
      parseBondData restify docTwoRows = some ({}, some BondError.ErrInvalidDataReturned) :=
  (sequence_spans_all_rows restify docTwoRows).2.2
    (bondTable [maturedCells, maturedCells]) (bondRow maturedCells) (bondRow maturedCells)
    rfl rfl rfl rfl
    (fun cell hcell => by
      have hm : restify.FindSubsetByTagName (bondRow maturedCells) "td" =
          maturedTexts.map tdText := rfl
      rw [hm, ← List.map_append, List.mem_map] at hcell
      obtain ⟨s, hs, rfl⟩ := hcell
      have hall : ∀ t ∈ maturedTexts ++ maturedTexts, t ≠ "input" := by decide
      exact ⟨readable_tdText s, by simp [firstChildIsInput, tdText, Node.FirstChild,
        Node.children, Node.elem, Node.text, Node.Data, hall s hs]⟩)

/-- C20: when every visited cell is readable, the extraction returns, and the number of
extracted values is the number of visited cells whose first child does not carry the data
`"input"`: each such cell adds exactly one value. A cell whose first child carries the
data `"strong"` or `"a"` while no element is found for that tag adds the content of `val`,
which is the last value added before, or the empty text when none was. -/
theorem extraction_count (R : Restify) (n : Node)
    (h : ∀ c ∈ visitedCells R n, CellReadable R c) :
    (∃ data, extractData R n = some data ∧
      data.length = ((visitedCells R n).filter (fun c => !firstChildIsInput c)).length) ∧
    (∀ (st : LoopState) (cell : Node), cell ∈ visitedCells R n →
      firstChildIsInput cell = false →
      ∃ v, cellStep R st cell = some ⟨st.data ++ [v], v⟩) ∧
    (∀ (st : LoopState) (cell fc : Node) (tag : String), (tag = "strong" ∨ tag = "a") →
      cell.FirstChild = some fc → fc.Data = tag → R.FindSubsetByTagName cell tag = [] →
      cellStep R st cell = some ⟨st.data ++ [st.val], st.val⟩) ∧
    (∀ (cells : List Node) (st1 : LoopState), cellsLoop R cells ⟨[], ""⟩ = some st1 →
      st1.val = st1.data.getLast?.getD "") := by
  refine ⟨?_, ?_, ?_, ?_⟩
  · obtain ⟨st1, hl, hlen⟩ := cellsLoop_count R (visitedCells R n) ⟨[], ""⟩ h
    refine ⟨st1.data, ?_, ?_⟩
    · rw [extractData_eq, hl]
      rfl
    · simpa using hlen
  · intro st cell hcell hi
    rcases cellStep_readable R st cell (h cell hcell) with ⟨hi2, _⟩ | ⟨_, hv⟩
    · rw [hi] at hi2
      cases hi2
    · exact hv
  · intro st cell fc tag htag hfc hd hfind
    have h1 : ¬ (("a" : String) = "strong") := by decide
    rcases htag with rfl | rfl
    · simp [cellStep, hfc, hd, hfind, lastChildData]
    · simp [cellStep, hfc, hd, hfind, lastChildData, h1]
  · intro cells st1 hl
    exact cellsLoop_val R cells ⟨[], ""⟩ st1 rfl hl

/-- Witness of C20: with the reference finders, a row of a text cell, a cell whose text
reads `strong`, a form-control cell and a text cell yields three values, the second being
the value left by the first cell. -/
theorem extraction_count_witness :
    extractData restify (docOfRows [rowStale]) = some ["abcdef", "abcdef", "EE"] ∧
      ∃ data, extractData restify (docOfRows [rowStale]) = some data ∧ data.length =
        ((visitedCells restify (docOfRows [rowStale])).filter
          (fun c => !firstChildIsInput c)).length :=
  ⟨by decide,
    (extraction_count restify (docOfRows [rowStale]) (fun c hc => by
      have hv : visitedCells restify (docOfRows [rowStale]) = rowStale := rfl
      rw [hv] at hc
      simp only [rowStale, List.mem_cons, List.mem_singleton, List.not_mem_nil, or_false] at hc
      rcases hc with rfl | rfl | rfl | rfl
      · exact readable_tdText _
      · exact readable_tdText _
      · exact ⟨.elem "input" [⟨"", "type", "checkbox"⟩] [], rfl,
          fun hx => absurd hx (by decide), fun hx => absurd hx (by decide)⟩
      · exact readable_tdText _)).1⟩

/-! ## Theorems: LoadBonds -/

/-- The loop of `LoadBonds` over descriptors whose retrieval succeeds. -/
theorem loadBondsLoop_ok {ε : Type} (f : ConfigBond → Except ε Bond) (l : List ConfigBond)
    (rs : List Bond) (acc : Bonds) (log : List ConfigBond)
    (h : List.Forall₂ (fun d r => f d = .ok r) l rs) :
    loadBondsLoop (recorded f) l acc log = ((⟨acc.Bonds ++ rs⟩, none), log ++ l) := by
  induction h generalizing acc log with
  | nil => simp [loadBondsLoop]
  | cons hd _ ih =>
    simp only [loadBondsLoop, recorded, hd]
    rw [ih]
    simp

/-- The loop of `LoadBonds` over descriptors the first failing of which is `d`. -/
theorem loadBondsLoop_error {ε : Type} (f : ConfigBond → Except ε Bond)
    (pre post : List ConfigBond) (d : ConfigBond) (e : ε) (rs : List Bond) (acc : Bonds)
    (log : List ConfigBond) (hpre : List.Forall₂ (fun x r => f x = .ok r) pre rs)
    (hd : f d = .error e) :
    loadBondsLoop (recorded f) (pre ++ d :: post) acc log =
      ((⟨acc.Bonds ++ rs⟩, some e), log ++ pre ++ [d]) := by
  induction hpre generalizing acc log with
  | nil => simp [loadBondsLoop, recorded, hd]
  | cons hx _ ih =>
    rw [List.cons_append]
    simp only [loadBondsLoop, recorded, hx]
    rw [ih]
    simp

/-- Descriptors whose retrieval succeeds have their records, in order. -/
theorem records_of_ok {ε : Type} (f : ConfigBond → Except ε Bond) (l : List ConfigBond)
    (h : ∀ x ∈ l, ∃ r, f x = .ok r) :
    ∃ rs, List.Forall₂ (fun x r => f x = .ok r) l rs := by
  induction l with
  | nil => exact ⟨[], List.Forall₂.nil⟩
  | cons x l ih =>
    obtain ⟨r, hr⟩ := h x (List.mem_cons_self x l)
    obtain ⟨rs, hrs⟩ := ih (fun y hy => h y (List.mem_cons_of_mem x hy))
    exact ⟨r :: rs, List.Forall₂.cons hr hrs⟩

/-- Descriptors that have their records are descriptors whose retrieval succeeds. -/
theorem ok_of_records {ε : Type} (f : ConfigBond → Except ε Bond) (l : List ConfigBond)
    (rs : List Bond) (h : List.Forall₂ (fun x r => f x = .ok r) l rs) :
    ∀ x ∈ l, ∃ r, f x = .ok r := by
  induction h with
  | nil => intro x hx; cases hx
  | cons hy _ ih =>
    intro x hx
    rcases List.mem_cons.mp hx with rfl | hm
    · exact ⟨_, hy⟩
    · exact ih x hm

/-- A list of descriptors either has a first one whose retrieval fails, or has the records
of all. -/
theorem first_failure_or_all {ε : Type} (f : ConfigBond → Except ε Bond)
    (l : List ConfigBond) :
    (∃ rs, List.Forall₂ (fun x r => f x = .ok r) l rs) ∨
    (∃ pre post d e rs, l = pre ++ d :: post ∧
      List.Forall₂ (fun x r => f x = .ok r) pre rs ∧ f d = .error e) := by
  induction l with
  | nil => exact Or.inl ⟨[], List.Forall₂.nil⟩
  | cons x l ih =>
    cases hx : f x with
    | error e => exact Or.inr ⟨[], l, x, e, [], rfl, List.Forall₂.nil, hx⟩
    | ok r =>
      rcases ih with ⟨rs, hrs⟩ | ⟨pre, post, d, e, rs, hl, hpre, hd⟩
      · exact Or.inl ⟨r :: rs, List.Forall₂.cons hx hrs⟩
      · exact Or.inr ⟨x :: pre, post, d, e, r :: rs, by rw [hl]; rfl,
          List.Forall₂.cons hx hpre, hd⟩

/-- C14: with the retrieval a function `f` of the descriptor, whenever `LoadBonds` returns
no error the returned collection has one record per configured bond, the i-th record being
the one retrieved for the i-th bond (equal descriptors give equal records), and each bond
was retrieved once, in the configured order. -/
theorem LoadBonds_one_record_per_bond {ε : Type} (f : ConfigBond → Except ε Bond)
    (config : Config) (bonds : Bonds) (log : List ConfigBond)
    (h : LoadBonds (recorded f) config [] = ((bonds, none), log)) :
    List.Forall₂ (fun d r => f d = .ok r) config.Bonds bonds.Bonds ∧
    bonds.Bonds.length = config.Bonds.length ∧
    (∀ (i : Nat) (hi : i < config.Bonds.length) (hj : i < bonds.Bonds.length),
      f config.Bonds[i] = .ok bonds.Bonds[i]) ∧
    (∀ (i j : Nat) (hi : i < config.Bonds.length) (hj : j < config.Bonds.length)
      (hi1 : i < bonds.Bonds.length) (hj1 : j < bonds.Bonds.length),
      config.Bonds[i] = config.Bonds[j] → bonds.Bonds[i] = bonds.Bonds[j]) ∧
    log = config.Bonds := by
  unfold LoadBonds at h
  have hall : List.Forall₂ (fun d r => f d = .ok r) config.Bonds bonds.Bonds ∧
      log = config.Bonds := by
    rcases first_failure_or_all f config.Bonds with
      ⟨rs, hrs⟩ | ⟨pre, post, d, e, rs, hl, hpre, hd⟩
    · rw [loadBondsLoop_ok f _ rs _ _ hrs] at h
      simp only [Prod.mk.injEq, and_true, List.nil_append] at h
      obtain ⟨hb, hlog⟩ := h
      rw [← hb, ← hlog]
      exact ⟨by simpa using hrs, rfl⟩
    · rw [hl, loadBondsLoop_error f pre post d e rs _ _ hpre hd] at h
      simp at h
  obtain ⟨hf, hlog⟩ := hall
  have hget : ∀ (i : Nat) (hi : i < config.Bonds.length) (hj : i < bonds.Bonds.length),
      f config.Bonds[i] = .ok bonds.Bonds[i] := fun i hi hj => hf.get hi hj
  refine ⟨hf, hf.length_eq.symm, hget, ?_, hlog⟩
  intro i j hi hj hi1 hj1 heq
  have h1 := hget i hi hi1
  have h2 := hget j hj hj1
  rw [heq, h2] at h1
  exact (Except.ok.inj h1).symm

/-- Witness of C14: two descriptors of series `EE`, as in the test with two matured bonds,
give their two records in order. -/
theorem LoadBonds_one_record_per_bond_witness :
    (LoadBonds (recorded sampleGet)
        ⟨[{ Denomination := 50, Serial := "abcdef", IssueDate := "01/1990", Series := "EE" },
          { Denomination := 50, Serial := "ghijk", IssueDate := "01/1990", Series := "EE" }]⟩
        []).1.1.Bonds.map (fun r => r.Serial) = ["abcdef", "ghijk"] ∧
      sampleGet { Denomination := 50, Serial := "ghijk", IssueDate := "01/1990", Series := "EE" } =
        .ok { Serial := "ghijk", Series := "EE", Denomination := "$50", IssueDate := "01/1990",
              FinalMaturity := "01/2020", IssuePrice := "$25.00", Interest := "$78.68",
              Value := "$103.68", Note := "MA" } :=
  ⟨by decide,
    (LoadBonds_one_record_per_bond sampleGet
      ⟨[{ Denomination := 50, Serial := "abcdef", IssueDate := "01/1990", Series := "EE" },
        { Denomination := 50, Serial := "ghijk", IssueDate := "01/1990", Series := "EE" }]⟩
      _ _ rfl).2.2.1 1 (by decide) (by decide)⟩

/-- C15: with the retrieval a function `f` of the descriptor, `LoadBonds` returns an error
exactly when the retrieval of some configured bond fails; it then returns the error of the
first such bond, with the records of the bonds before it only, and the bonds retrieved are
those before it and that bond: none after it. -/
theorem LoadBonds_aborts_at_first_failure {ε : Type} (f : ConfigBond → Except ε Bond)
    (config : Config) :
    ((∃ err, (LoadBonds (recorded f) config []).1.2 = some err) ↔
      ∃ d ∈ config.Bonds, ∃ e, f d = .error e) ∧
    (∀ (pre post : List ConfigBond) (d : ConfigBond) (e : ε),
      config.Bonds = pre ++ d :: post → (∀ x ∈ pre, ∃ r, f x = .ok r) → f d = .error e →
      ∃ rs, List.Forall₂ (fun x r => f x = .ok r) pre rs ∧
        LoadBonds (recorded f) config [] = ((⟨rs⟩, some e), pre ++ [d])) := by
  have hfirst : ∀ (pre post : List ConfigBond) (d : ConfigBond) (e : ε),
      config.Bonds = pre ++ d :: post → (∀ x ∈ pre, ∃ r, f x = .ok r) → f d = .error e →
      ∃ rs, List.Forall₂ (fun x r => f x = .ok r) pre rs ∧
        LoadBonds (recorded f) config [] = ((⟨rs⟩, some e), pre ++ [d]) := by
    intro pre post d e hl hpre hd
    obtain ⟨rs, hrs⟩ := records_of_ok f pre hpre
    refine ⟨rs, hrs, ?_⟩
    unfold LoadBonds
    rw [hl, loadBondsLoop_error f pre post d e rs _ _ hrs hd]
    simp
  refine ⟨?_, hfirst⟩
  rcases first_failure_or_all f config.Bonds with
    ⟨rs, hrs⟩ | ⟨pre, post, d, e, rs, hl, hpre, hd⟩
  · have hno : (LoadBonds (recorded f) config []).1.2 = none := by
      unfold LoadBonds
      rw [loadBondsLoop_ok f _ rs _ _ hrs]
    constructor
    · rintro ⟨err, herr⟩
      rw [hno] at herr
      cases herr
    · rintro ⟨d, hd, e, he⟩
      obtain ⟨r, hr⟩ := ok_of_records f _ rs hrs d hd
      rw [hr] at he
      cases he
  · obtain ⟨rs1, _, hres⟩ := hfirst pre post d e hl (ok_of_records f pre rs hpre) hd
    constructor
    · intro _
      exact ⟨d, by rw [hl]; simp, e, hd⟩
    · intro _
      exact ⟨e, by rw [hres]⟩

/-- Witness of C15: of three configured bonds the second of which is rejected, the first
is loaded, the error is that of the second, and the third is not retrieved. -/
theorem LoadBonds_aborts_at_first_failure_witness :
    ∃ rs, List.Forall₂ (fun x r => sampleGet x = .ok r)
        [{ Denomination := 50, Serial := "abcdef", IssueDate := "01/1990", Series := "EE" }] rs ∧
      LoadBonds (recorded sampleGet)
        ⟨[{ Denomination := 50, Serial := "abcdef", IssueDate := "01/1990", Series := "EE" },
          { Denomination := 50, Serial := "abcdef", IssueDate := "01/2000", Series := "AA" },
          { Denomination := 50, Serial := "ghijk", IssueDate := "01/1990", Series := "EE" }]⟩ [] =
        ((⟨rs⟩, some BondError.ErrInvalidDataReturned),
          [{ Denomination := 50, Serial := "abcdef", IssueDate := "01/1990", Series := "EE" }] ++
          [{ Denomination := 50, Serial := "abcdef", IssueDate := "01/2000", Series := "AA" }]) :=
  (LoadBonds_aborts_at_first_failure sampleGet
    ⟨[{ Denomination := 50, Serial := "abcdef", IssueDate := "01/1990", Series := "EE" },
      { Denomination := 50, Serial := "abcdef", IssueDate := "01/2000", Series := "AA" },
      { Denomination := 50, Serial := "ghijk", IssueDate := "01/1990", Series := "EE" }]⟩).2
    [{ Denomination := 50, Serial := "abcdef", IssueDate := "01/1990", Series := "EE" }]
    [{ Denomination := 50, Serial := "ghijk", IssueDate := "01/1990", Series := "EE" }]
    { Denomination := 50, Serial := "abcdef", IssueDate := "01/2000", Series := "AA" }
    BondError.ErrInvalidDataReturned rfl
    (fun x hx => by
      rw [List.mem_singleton] at hx
      subst hx
      exact ⟨_, rfl⟩)
    rfl

/-! ## Theorems: the configuration loader -/

/-- The loop over the descriptors runs to its end exactly when all are complete. -/
theorem validateBonds_none_iff (l : List ConfigBond) :
    validateBonds l = none ↔ ∀ b ∈ l, CompleteBond b := by
  induction l with
  | nil => simp [validateBonds]
  | cons b bs ih =>
    simp only [validateBonds, kindOfInt, kindOfString, ne_eq, not_true_eq_false, if_false,
      List.mem_cons, forall_eq_or_imp]
    by_cases h1 : b.Denomination = 0 ∨ b.Denomination < 0
    · simp only [h1, if_true]
      constructor
      · intro h
        cases h
      · rintro ⟨hc, _⟩
        unfold CompleteBond at hc
        omega
    · simp only [h1, if_false]
      by_cases h2 : b.IssueDate = "" ∨ b.Serial = "" ∨ b.Series = ""
      · simp only [h2, if_true]
        constructor
        · intro h
          cases h
        · rintro ⟨hc, _⟩
          unfold CompleteBond at hc
          tauto
      · simp only [h2, if_false, ih]
        constructor
        · intro h
          refine ⟨?_, h⟩
          unfold CompleteBond
          refine ⟨by omega, ?_, ?_, ?_⟩ <;> tauto
        · rintro ⟨_, h⟩
          exact h

/-- The only error of the loop over the descriptors is `ErrConfigIsNotComplete`. -/
theorem validateBonds_error (l : List ConfigBond) (err : ConfigError)
    (h : validateBonds l = some err) : err = .ErrConfigIsNotComplete := by
  induction l with
  | nil => simp [validateBonds] at h
  | cons b bs ih =>
    simp only [validateBonds, kindOfInt, kindOfString, ne_eq, not_true_eq_false, if_false] at h
    split at h
    · exact (Option.some.inj h).symm
    · split at h
      · exact (Option.some.inj h).symm
      · exact ih h

/-- The validation returns no error exactly for a configuration with a non-empty list of
complete descriptors. -/
theorem validateConfig_none_iff (config : Option Config) :
    (validateConfig config).2 = none ↔
      ∃ c, config = some c ∧ c.Bonds ≠ [] ∧ ∀ b ∈ c.Bonds, CompleteBond b := by
  cases config with
  | none => simp [validateConfig]
  | some c =>
    unfold validateConfig
    by_cases hb : c.Bonds = []
    · simp [hb]
    · simp only [hb, if_false]
      cases hv : validateBonds c.Bonds with
      | none =>
        simp only [true_iff]
        exact ⟨c, rfl, hb, (validateBonds_none_iff c.Bonds).mp hv⟩
      | some err =>
        constructor
        · intro h
          cases h
        · rintro ⟨c1, hc, _, hall⟩
          cases hc
          rw [(validateBonds_none_iff c.Bonds).mpr hall] at hv
          cases hv

/-- A configuration that passes the validation is returned as it is. -/
theorem validateConfig_fst (config c1 : Option Config)
    (h : validateConfig config = (c1, none)) : c1 = config := by
  cases config with
  | none => simp [validateConfig] at h
  | some c =>
    unfold validateConfig at h
    by_cases hb : c.Bonds = []
    · simp [hb] at h
    · simp only [hb, if_false] at h
      cases hv : validateBonds c.Bonds with
      | none =>
        rw [hv] at h
        exact (Prod.mk.inj h).1.symm
      | some err =>
        rw [hv] at h
        cases (Prod.mk.inj h).2

/-- C16: the validation of `parseAndValidateConfigBytes` returns no error if and only if
the decoded configuration has a non-empty list of bonds each of which has a positive
denomination and a non-empty serial, issue date and series; so does the function itself
when the decoding gives no error; and every configuration that `LoadConfig` returns
without error has these properties. -/
theorem validation_admits_complete (env : ConfigEnv) :
    (∀ config : Option Config, (validateConfig config).2 = none ↔
      ∃ c, config = some c ∧ c.Bonds ≠ [] ∧ ∀ b ∈ c.Bonds, CompleteBond b) ∧
    (∀ yamlBytes : List UInt8, (parseAndValidateConfigBytes env yamlBytes).2 = none ↔
      (env.Unmarshal yamlBytes).2 = none ∧
        ∃ c, (env.Unmarshal yamlBytes).1 = some c ∧ c.Bonds ≠ [] ∧
          ∀ b ∈ c.Bonds, CompleteBond b) ∧
    (∀ (configPath : String) (config : Option Config),
      LoadConfig env configPath = (config, none) →
      ∃ c, config = some c ∧ c.Bonds ≠ [] ∧ ∀ b ∈ c.Bonds, CompleteBond b) := by
  have hparse : ∀ yamlBytes : List UInt8, (parseAndValidateConfigBytes env yamlBytes).2 = none ↔
      (env.Unmarshal yamlBytes).2 = none ∧
        ∃ c, (env.Unmarshal yamlBytes).1 = some c ∧ c.Bonds ≠ [] ∧
          ∀ b ∈ c.Bonds, CompleteBond b := by
    intro yamlBytes
    unfold parseAndValidateConfigBytes
    rcases hu : env.Unmarshal yamlBytes with ⟨config, _ | msg⟩
    · simp only [true_and]
      exact validateConfig_none_iff config
    · simp
  have hfst : ∀ (yamlBytes : List UInt8) (config : Option Config),
      parseAndValidateConfigBytes env yamlBytes = (config, none) →
      (env.Unmarshal yamlBytes).1 = config := by
    intro yamlBytes config h
    unfold parseAndValidateConfigBytes at h
    rcases hu : env.Unmarshal yamlBytes with ⟨c0, _ | msg⟩
    · rw [hu] at h
      exact (validateConfig_fst c0 config h).symm
    · rw [hu] at h
      cases (Prod.mk.inj h).2
  refine ⟨validateConfig_none_iff, hparse, ?_⟩
  intro configPath config h
  unfold LoadConfig at h
  cases hr : env.ReadFile configPath with
  | none => simp [hr] at h
  | some configBytes =>
    simp only [hr] at h
    by_cases hlen : configBytes.length = 0
    · simp [hlen] at h
    · simp only [hlen, if_false] at h
      rcases hp : parseAndValidateConfigBytes env configBytes with ⟨c0, _ | err⟩
      · rw [hp] at h
        simp only [Prod.mk.injEq, and_true] at h
        subst h
        have h2 := (hparse configBytes).mp (by rw [hp])
        rw [hfst configBytes c0 hp] at h2
        exact h2.2
      · rw [hp] at h
        simp at h

/-- Witness of C16: the valid configuration of `config_test.go` is returned by `LoadConfig`
without error, and its bond is complete. -/
theorem validation_admits_complete_witness :
    LoadConfig (constEnv (some validConfig)) "config.yaml" = (some validConfig, none) ∧
      ∃ c : Config, some validConfig = some c ∧ c.Bonds ≠ [] ∧ ∀ b ∈ c.Bonds, CompleteBond b :=
  ⟨by decide,
    (validation_admits_complete (constEnv (some validConfig))).2.2 "config.yaml"
      (some validConfig) (by decide)⟩

/-- A list with a descriptor that is not complete makes the loop return
`ErrConfigIsNotComplete`. -/
theorem validateBonds_incomplete (l : List ConfigBond)
    (h : ∃ b ∈ l, b.Denomination ≤ 0 ∨ b.Serial = "" ∨ b.IssueDate = "" ∨ b.Series = "") :
    validateBonds l = some .ErrConfigIsNotComplete := by
  cases hv : validateBonds l with
  | none =>
    obtain ⟨b, hb, hbad⟩ := h
    have hc := (validateBonds_none_iff l).mp hv b hb
    unfold CompleteBond at hc
    rcases hbad with h1 | h1 | h1 | h1
    · omega
    · exact absurd h1 hc.2.1
    · exact absurd h1 hc.2.2.1
    · exact absurd h1 hc.2.2.2
  | some err => rw [validateBonds_error l err hv]

/-- C17: the validation gives `ErrConfigIsNil` for a decoded configuration that is `nil`,
`ErrNoBondsInConfig` for one whose list of bonds is missing or empty, and
`ErrConfigIsNotComplete` for one with a non-empty list in which some bond has a
denomination that is not positive or an empty serial, issue date or series, such as a bond
with only the denomination 50 set; `parseAndValidateConfigBytes` returns what the
validation gives whenever the decoding gives no error. -/
theorem validation_error_kinds :
    validateConfig none = (none, some ConfigError.ErrConfigIsNil) ∧
    (∀ c : Config, c.Bonds = [] →
      validateConfig (some c) = (some c, some ConfigError.ErrNoBondsInConfig)) ∧
    (∀ c : Config, c.Bonds ≠ [] →
      (∃ b ∈ c.Bonds, b.Denomination ≤ 0 ∨ b.Serial = "" ∨ b.IssueDate = "" ∨ b.Series = "") →
      validateConfig (some c) = (none, some ConfigError.ErrConfigIsNotComplete)) ∧
    validateConfig (some ⟨[{ Denomination := 50 }]⟩) =
      (none, some ConfigError.ErrConfigIsNotComplete) ∧
    (∀ (env : ConfigEnv) (yamlBytes : List UInt8) (config : Option Config),
      env.Unmarshal yamlBytes = (config, none) →
      parseAndValidateConfigBytes env yamlBytes = validateConfig config) := by
  refine ⟨rfl, ?_, ?_, by decide, ?_⟩
  · intro c hc
    simp [validateConfig, hc]
  · intro c hc hbad
    simp [validateConfig, hc, validateBonds_incomplete c.Bonds hbad]
  · intro env yamlBytes config hu
    simp [parseAndValidateConfigBytes, hu]

/-- Witness of C17: the configurations of the tests `config-file-with-no-bonds` and
`config-file-with-only-denomination`, through `parseAndValidateConfigBytes`. -/
theorem validation_error_kinds_witness :
    parseAndValidateConfigBytes (constEnv (some ⟨[]⟩)) [98] =
        (some ⟨[]⟩, some ConfigError.ErrNoBondsInConfig) ∧
      parseAndValidateConfigBytes (constEnv (some ⟨[{ Denomination := 50 }]⟩)) [98] =
        (none, some ConfigError.ErrConfigIsNotComplete) :=
  ⟨(validation_error_kinds.2.2.2.2 (constEnv (some ⟨[]⟩)) [98] (some ⟨[]⟩) rfl).trans
      (validation_error_kinds.2.1 ⟨[]⟩ rfl),
    (validation_error_kinds.2.2.2.2 (constEnv (some ⟨[{ Denomination := 50 }]⟩)) [98]
        (some ⟨[{ Denomination := 50 }]⟩) rfl).trans
      (validation_error_kinds.2.2.1 ⟨[{ Denomination := 50 }]⟩ (by decide)
        ⟨{ Denomination := 50 }, List.mem_singleton.mpr rfl, Or.inr (Or.inl rfl)⟩)⟩

end Goldfinger
